import Mathlib

/-!
# OpenVisionMatrix perspective-mapping core: a shallow embedding

This file embeds the math core of the OpenVisionMatrix repository
(`packages/core` geometry types, the quad validator, the rect-to-quad
homography solver, the point projector, the CSS matrix embedder and the
quad utilities) as executable Lean definitions over `ℚ`, and proves the
specification claims about them.

JavaScript `number` arithmetic is modelled by exact rational arithmetic:
every operation used by the source (`+ - * /`, `Math.abs`, `Math.min`,
`Math.max`, comparisons) is mirrored on `ℚ`.  Thrown exceptions are
modelled by `Except String`, carrying the source's message strings.
-/

/-- The `Point2D` from the core types: `{x: number, y: number}`. -/
@[ext]
structure Point2D where
  x : ℚ
  y : ℚ
deriving DecidableEq, Repr

/-- The `Quad`: ordered 4-tuple `[p0, p1, p2, p3]` of `Point2D`. -/
@[ext]
structure Quad where
  p0 : Point2D
  p1 : Point2D
  p2 : Point2D
  p3 : Point2D
deriving DecidableEq, Repr

/-- Indexed access `quad[i]` for `i = 0,1,2,3`. -/
def Quad.corner (q : Quad) : Fin 4 → Point2D
  | 0 => q.p0
  | 1 => q.p1
  | 2 => q.p2
  | 3 => q.p3

/-- The `Matrix3x3`: 9 numbers in row-major order. -/
structure Matrix3x3 where
  m00 : ℚ
  m01 : ℚ
  m02 : ℚ
  m10 : ℚ
  m11 : ℚ
  m12 : ℚ
  m20 : ℚ
  m21 : ℚ
  m22 : ℚ
deriving DecidableEq, Repr

/-- The `Matrix4x4`: 16 numbers, stored in the CSS `matrix3d` column-major
array order `[e0, ..., e15]`. -/
structure Matrix4x4 where
  e0 : ℚ
  e1 : ℚ
  e2 : ℚ
  e3 : ℚ
  e4 : ℚ
  e5 : ℚ
  e6 : ℚ
  e7 : ℚ
  e8 : ℚ
  e9 : ℚ
  e10 : ℚ
  e11 : ℚ
  e12 : ℚ
  e13 : ℚ
  e14 : ℚ
  e15 : ℚ
deriving DecidableEq, Repr

/-! ## Quad utilities (`packages/core` fullscreen helpers) -/

/-- The `FullscreenFit` from the core types. -/
inductive FullscreenFit where
  | stretch
  | contain
  | cover
deriving DecidableEq, Repr

/-- The `FullscreenAlign` from the core types. -/
inductive FullscreenAlign where
  | center
  | topLeft
  | topRight
  | bottomLeft
  | bottomRight
deriving DecidableEq, Repr

/-- The `quadFromRect(x, y, width, height)`. -/
def quadFromRect (x y width height : ℚ) : Quad :=
  ⟨⟨x, y⟩, ⟨x + width, y⟩, ⟨x + width, y + height⟩, ⟨x, y + height⟩⟩

/-- The `getQuadCenter(quad)`: the `reduce` over the four points followed by
division by `quad.length = 4`. -/
def getQuadCenter (q : Quad) : Point2D :=
  ⟨(q.p0.x + q.p1.x + q.p2.x + q.p3.x) / 4,
   (q.p0.y + q.p1.y + q.p2.y + q.p3.y) / 4⟩

/-- The `scaleQuad(quad, scaleX, scaleY, origin?)`: the optional `origin`
argument defaults (via `??`) to the quad's centroid. -/
def scaleQuad (q : Quad) (scaleX scaleY : ℚ) (origin : Option Point2D) : Quad :=
  let center := origin.getD (getQuadCenter q)
  let f : Point2D → Point2D := fun p =>
    ⟨center.x + (p.x - center.x) * scaleX, center.y + (p.y - center.y) * scaleY⟩
  ⟨f q.p0, f q.p1, f q.p2, f q.p3⟩

/-- The `safeContentWidth`/`safeContentHeight` locals of
`computeFullscreenQuad`: `content > 0 ? content : stage`. -/
def safeContent (stage content : ℚ) : ℚ :=
  if 0 < content then content else stage

/-- The `targetWidth`/`targetHeight` locals of `computeFullscreenQuad`:
stage size for `stretch`, otherwise the safe content size multiplied by
`min`/`max` of the two stage/content ratios. -/
def fullscreenTarget (stageWidth stageHeight contentWidth contentHeight : ℚ)
    (fit : FullscreenFit) : ℚ × ℚ :=
  let safeContentWidth := safeContent stageWidth contentWidth
  let safeContentHeight := safeContent stageHeight contentHeight
  match fit with
  | .stretch => (stageWidth, stageHeight)
  | .contain =>
      let scale := min (stageWidth / safeContentWidth) (stageHeight / safeContentHeight)
      (safeContentWidth * scale, safeContentHeight * scale)
  | .cover =>
      let scale := max (stageWidth / safeContentWidth) (stageHeight / safeContentHeight)
      (safeContentWidth * scale, safeContentHeight * scale)

/-- The `offsetX`/`offsetY` locals of `computeFullscreenQuad`, one case
per `align` value (`top-left` shares the `default` branch). -/
def fullscreenOffset (stageWidth stageHeight targetWidth targetHeight : ℚ)
    (align : FullscreenAlign) : ℚ × ℚ :=
  match align with
  | .center => ((stageWidth - targetWidth) / 2, (stageHeight - targetHeight) / 2)
  | .topRight => (stageWidth - targetWidth, 0)
  | .bottomLeft => (0, stageHeight - targetHeight)
  | .bottomRight => (stageWidth - targetWidth, stageHeight - targetHeight)
  | .topLeft => (0, 0)

/-- The `computeFullscreenQuad(stageWidth, stageHeight, contentWidth,
contentHeight, fit, align)`: the straight-line body decomposed into the
target-size and offset computations above, then `quadFromRect`. -/
def computeFullscreenQuad (stageWidth stageHeight contentWidth contentHeight : ℚ)
    (fit : FullscreenFit) (align : FullscreenAlign) : Quad :=
  let t := fullscreenTarget stageWidth stageHeight contentWidth contentHeight fit
  let o := fullscreenOffset stageWidth stageHeight t.1 t.2 align
  quadFromRect o.1 o.2 t.1 t.2

/-! ## Quad validator (`math/validate.ts`) -/

/-- The `DEFAULT_EPSILON = 1e-6`. -/
def DEFAULT_EPSILON : ℚ := 1 / 1000000

/-- The `quadArea(quad)`: half the shoelace sum over the four edges
`(p0,p1), (p1,p2), (p2,p3), (p3,p0)`. -/
def quadArea (q : Quad) : ℚ :=
  ((q.p0.x * q.p1.y - q.p1.x * q.p0.y)
    + (q.p1.x * q.p2.y - q.p2.x * q.p1.y)
    + (q.p2.x * q.p3.y - q.p3.x * q.p2.y)
    + (q.p3.x * q.p0.y - q.p0.x * q.p3.y)) / 2

/-- The `isClockwiseQuad(quad)`: `quadArea(quad) > 0`. -/
def isClockwiseQuad (q : Quad) : Bool :=
  decide (0 < quadArea q)

/-- The `pointsEqual(a, b)`: exact coordinate equality. -/
def pointsEqual (a b : Point2D) : Bool :=
  decide (a.x = b.x) && decide (a.y = b.y)

/-- The `cross(a, b, c)`: 2D cross product of the edge vectors `b - a` and
`c - a`. -/
def cross (a b c : Point2D) : ℚ :=
  (b.x - a.x) * (c.y - a.y) - (b.y - a.y) * (c.x - a.x)

/-- The `hasDuplicatePoints(quad)`: the double loop over pairs `i < j`,
unrolled in loop order. -/
def hasDuplicatePoints (q : Quad) : Bool :=
  pointsEqual q.p0 q.p1 || pointsEqual q.p0 q.p2 || pointsEqual q.p0 q.p3
    || pointsEqual q.p1 q.p2 || pointsEqual q.p1 q.p3 || pointsEqual q.p2 q.p3

/-- The `hasCollinearTriplet(quad, epsilon)`: `.some` over the triplet list
`[0,1,2], [0,1,3], [0,2,3], [1,2,3]`. -/
def hasCollinearTriplet (q : Quad) (ε : ℚ) : Bool :=
  decide (|cross q.p0 q.p1 q.p2| ≤ ε) || decide (|cross q.p0 q.p1 q.p3| ≤ ε)
    || decide (|cross q.p0 q.p2 q.p3| ≤ ε) || decide (|cross q.p1 q.p2 q.p3| ≤ ε)

/-- The `segmentsIntersect(a, b, c, d, epsilon)`: the orientation-sign proper
crossing test.  The source's trailing ternary `cond1 ? cond2 : false` is
written as `&&`. -/
def segmentsIntersect (a b c d : Point2D) (ε : ℚ) : Bool :=
  let ab := cross a b c
  let ab2 := cross a b d
  let cd := cross c d a
  let cd2 := cross c d b
  if |ab| ≤ ε ∧ |ab2| ≤ ε ∧ |cd| ≤ ε ∧ |cd2| ≤ ε then
    false
  else
    decide ((ε < ab ∧ ab2 < -ε) ∨ (ab < -ε ∧ ε < ab2))
      && decide ((ε < cd ∧ cd2 < -ε) ∨ (cd < -ε ∧ ε < cd2))

/-- The `isSelfIntersecting(quad, epsilon)`: tests the two diagonal edge
pairs `(p0p1, p2p3)` and `(p1p2, p3p0)`. -/
def isSelfIntersecting (q : Quad) (ε : ℚ) : Bool :=
  segmentsIntersect q.p0 q.p1 q.p2 q.p3 ε || segmentsIntersect q.p1 q.p2 q.p3 q.p0 ε

/-- The `validateQuad(quad, epsilon = DEFAULT_EPSILON)`: `none` models
`{ok: true}`, `some reason` models `{ok: false, reason}`. -/
def validateQuad (q : Quad) (ε : ℚ) : Option String :=
  if hasDuplicatePoints q then some "Quad contains duplicate points."
  else if hasCollinearTriplet q ε then some "Quad has collinear points."
  else if |quadArea q| ≤ ε then some "Quad area is too small."
  else if !isClockwiseQuad q then some "Quad must be clockwise."
  else if isSelfIntersecting q ε then some "Quad is self-intersecting."
  else none

/-! ## CSS embedder (`math/css.ts`) -/

/-- The `homographyToCssMatrix3d(H)`: the 3x3 homography embedded into the
column-major CSS `matrix3d` array
`[h00, h10, 0, h20, h01, h11, 0, h21, 0, 0, 1, 0, h02, h12, 0, h22]`. -/
def homographyToCssMatrix3d (H : Matrix3x3) : Matrix4x4 :=
  ⟨H.m00, H.m10, 0, H.m20,
   H.m01, H.m11, 0, H.m21,
   0, 0, 1, 0,
   H.m02, H.m12, 0, H.m22⟩

/-- A homogeneous 4-component point. -/
structure Vec4 where
  x : ℚ
  y : ℚ
  z : ℚ
  w : ℚ
deriving DecidableEq, Repr

/-- Modelled from the spec: multiplication of a CSS `matrix3d` (whose 16
entries are stored column-major, as the compositor consumes them) by a
homogeneous point, the operation the embedding round-trip property is
stated against. -/
def mulMatrix4Vec4 (M : Matrix4x4) (v : Vec4) : Vec4 :=
  ⟨M.e0 * v.x + M.e4 * v.y + M.e8 * v.z + M.e12 * v.w,
   M.e1 * v.x + M.e5 * v.y + M.e9 * v.z + M.e13 * v.w,
   M.e2 * v.x + M.e6 * v.y + M.e10 * v.z + M.e14 * v.w,
   M.e3 * v.x + M.e7 * v.y + M.e11 * v.z + M.e15 * v.w⟩

/-! ## Point projector (`math/homography.ts`, `applyHomography`) -/

/-- The `W_EPSILON = 1e-12`. -/
def W_EPSILON : ℚ := 1 / 1000000000000

/-- The w-component `H20·x + H21·y + H22` computed by `applyHomography`. -/
def wComponent (H : Matrix3x3) (p : Point2D) : ℚ :=
  H.m20 * p.x + H.m21 * p.y + H.m22

/-- The `applyHomography(H, p)`: the projective application with perspective
divide; throws when `|w'| < W_EPSILON`. -/
def applyHomography (H : Matrix3x3) (p : Point2D) : Except String Point2D :=
  let xPrime := H.m00 * p.x + H.m01 * p.y + H.m02
  let yPrime := H.m10 * p.x + H.m11 * p.y + H.m12
  let wPrime := H.m20 * p.x + H.m21 * p.y + H.m22
  if |wPrime| < W_EPSILON then
    .error "Homography w is ~0 (degenerate transform)"
  else
    .ok ⟨xPrime / wPrime, yPrime / wPrime⟩

/-! ## Linear solver (`math/homography.ts`, `solveLinearSystem`)

The source mutates a row-major `number[][]` and a `number[]` in place.
The embedding threads the same data as a pair of total functions
`(Fin n → Fin n → ℚ) × (Fin n → ℚ)`; each loop iteration of the source
becomes one functional state update. -/

/-- One Gauss-Jordan state: the coefficient matrix `A` and the
right-hand side `b`. -/
def GaussState (n : ℕ) := (Fin n → Fin n → ℚ) × (Fin n → ℚ)

/-- The pivot search of iteration `i`: start from `pivotRow = i,
max = |A[i][i]|` and scan rows `r = i+1 .. n-1`, moving to `r` exactly
when `|A[r][i]|` strictly exceeds the running maximum (so the running
maximum is always `|A[pivotRow][i]|`). -/
def pivotSearch {n : ℕ} (A : Fin n → Fin n → ℚ) (i : Fin n) : Fin n :=
  ((List.finRange n).filter (fun r => i < r)).foldl
    (fun p r => if |A p i| < |A r i| then r else p) i

/-- The row-swap indexing of iteration `i` with pivot row `p`: the
source swaps rows `i` and `pivotRow` (a no-op when they coincide). -/
def swapIdx {n : ℕ} (i p r : Fin n) : Fin n :=
  if r = i then p else if r = p then i else r

/-- The row swap of iteration `i`, applied to `A` and `b`. -/
def gaussSwap {n : ℕ} (i p : Fin n) (s : GaussState n) : GaussState n :=
  (fun r c => s.1 (swapIdx i p r) c, fun r => s.2 (swapIdx i p r))

/-- The pivot-row normalisation of iteration `i`: divide `A[i][c]` for
`c ≥ i` and `b[i]` by the pivot `A[i][i]`. -/
def gaussNorm {n : ℕ} (i : Fin n) (s : GaussState n) : GaussState n :=
  let pivot := s.1 i i
  (fun r c => if r = i ∧ i ≤ c then s.1 r c / pivot else s.1 r c,
   fun r => if r = i then s.2 r / pivot else s.2 r)

/-- The elimination of column `i` from every row `r ≠ i` over columns
`c ≥ i`, with `factor = A[r][i]` read before row `r` is overwritten (the
source's `factor === 0` `continue` skips work whose effect is
subtracting zero, so it is behaviourally the identity and is not
reproduced). -/
def gaussElim {n : ℕ} (i : Fin n) (s : GaussState n) : GaussState n :=
  (fun r c => if r ≠ i ∧ i ≤ c then s.1 r c - s.1 r i * s.1 i c else s.1 r c,
   fun r => if r ≠ i then s.2 r - s.1 r i * s.2 i else s.2 r)

/-- One iteration `i` of the source's elimination loop: pivot search,
singularity test (`max === 0`, with `max = |A[pivotRow][i]|`), row swap,
pivot-row normalisation, and elimination. -/
def gaussStep {n : ℕ} (i : Fin n) (s : GaussState n) : Except String (GaussState n) :=
  let pivotRow := pivotSearch s.1 i
  if |s.1 pivotRow i| = 0 then
    .error "Homography system is singular."
  else
    .ok (gaussElim i (gaussNorm i (gaussSwap i pivotRow s)))

/-- The outer `for (i = 0; i < n; i++)` loop, entered at index `k`. -/
def gaussLoop {n : ℕ} (k : ℕ) (s : GaussState n) : Except String (GaussState n) :=
  if h : k < n then
    match gaussStep ⟨k, h⟩ s with
    | .error e => .error e
    | .ok s' => gaussLoop (k + 1) s'
  else
    .ok s
termination_by n - k

/-- The `solveLinearSystem(A, b)`: run the elimination loop and return the
transformed right-hand side `b`. -/
def solveLinearSystem {n : ℕ} (A : Fin n → Fin n → ℚ) (b : Fin n → ℚ) :
    Except String (Fin n → ℚ) :=
  match gaussLoop 0 (A, b) with
  | .error e => .error e
  | .ok s => .ok s.2

/-! ## Homography solver (`math/homography.ts`) -/

/-- The canonical source rectangle corners
`(0,0), (width,0), (width,height), (0,height)` built by
`computeHomographyRectToQuad` and `sanityCheckRectToQuad`. -/
def srcCorner (width height : ℚ) : Fin 4 → Point2D
  | 0 => ⟨0, 0⟩
  | 1 => ⟨width, 0⟩
  | 2 => ⟨width, height⟩
  | 3 => ⟨0, height⟩

/-- The 8x8 matrix `A` assembled by `computeHomographyRectToQuad`: for
correspondence `i`, row `2i` is `[s.x, s.y, 1, 0, 0, 0, -t.x*s.x,
-t.x*s.y]` and row `2i+1` is `[0, 0, 0, s.x, s.y, 1, -t.y*s.x,
-t.y*s.y]`. -/
def rectToQuadMatrix (width height : ℚ) (q : Quad) : Fin 8 → Fin 8 → ℚ :=
  fun r c =>
    let i : Fin 4 := ⟨r.val / 2, by omega⟩
    let s := srcCorner width height i
    let t := q.corner i
    if r.val % 2 = 0 then
      if c.val = 0 then s.x else if c.val = 1 then s.y else if c.val = 2 then 1
      else if c.val = 6 then -t.x * s.x else if c.val = 7 then -t.x * s.y else 0
    else
      if c.val = 3 then s.x else if c.val = 4 then s.y else if c.val = 5 then 1
      else if c.val = 6 then -t.y * s.x else if c.val = 7 then -t.y * s.y else 0

/-- The right-hand side `b` assembled by `computeHomographyRectToQuad`:
`t.x` at row `2i`, `t.y` at row `2i+1`. -/
def rectToQuadVec (q : Quad) : Fin 8 → ℚ :=
  fun r =>
    let t := q.corner ⟨r.val / 2, by omega⟩
    if r.val % 2 = 0 then t.x else t.y

/-- One iteration of the `sanityCheckRectToQuad` loop: re-project
canonical corner `i` and compare with the quad corner within
`DEFAULT_EPSILON`; an exception from `applyHomography` propagates. -/
def sanityStep (width height : ℚ) (q : Quad) (H : Matrix3x3) (u : Unit) (i : Fin 4) :
    Except String Unit :=
  match applyHomography H (srcCorner width height i) with
  | .error e => .error e
  | .ok mapped =>
      let target := q.corner i
      if DEFAULT_EPSILON < |mapped.x - target.x| ∨ DEFAULT_EPSILON < |mapped.y - target.y| then
        .error "Homography sanity check failed."
      else
        .ok u

/-- The `sanityCheckRectToQuad(width, height, quad, H)`: the loop over the
four corner indices. -/
def sanityCheckRectToQuad (width height : ℚ) (q : Quad) (H : Matrix3x3) :
    Except String Unit :=
  [0, 1, 2, 3].foldlM (sanityStep width height q H) ()

/-- The assembly of the solved 8-vector `h` plus the fixed `h22 = 1`
into the row-major 3x3 matrix, as done after the solve in
`computeHomographyRectToQuad`. -/
def solutionMatrix (h : Fin 8 → ℚ) : Matrix3x3 :=
  ⟨h 0, h 1, h 2, h 3, h 4, h 5, h 6, h 7, 1⟩

/-- The `computeHomographyRectToQuad(width, height, quad)`.  The source
consults `process.env.NODE_ENV` to decide whether to run the post-solve
sanity check (`isProd` skips it); that environment read is modelled by
the explicit `isProd : Bool` parameter. -/
def computeHomographyRectToQuad (isProd : Bool) (width height : ℚ) (q : Quad) :
    Except String Matrix3x3 :=
  if width ≤ 0 ∨ height ≤ 0 then
    .error "Width and height must be positive."
  else
    match validateQuad q DEFAULT_EPSILON with
    | some reason => .error ("Invalid quad: " ++ reason)
    | none =>
        match solveLinearSystem (rectToQuadMatrix width height q) (rectToQuadVec q) with
        | .error e => .error e
        | .ok h =>
            let H : Matrix3x3 := solutionMatrix h
            if isProd then
              .ok H
            else
              match sanityCheckRectToQuad width height q H with
              | .error e => .error e
              | .ok _ => .ok H

/-! ## Specification-side definitions

The definitions below are written from the specification's words, not
from the source; the refinement claims compare them with the source
translations above. -/

/-- Spec check 1: some two of the four points exactly equal. -/
def specDuplicate (q : Quad) : Prop :=
  ∃ i j : Fin 4, i < j ∧ q.corner i = q.corner j

/-- Spec check 2: some 3-point triple (taken by its increasing index
representative, whose first point is the cross-product base point) has
cross-product magnitude at most `ε`. -/
def specCollinear (q : Quad) (ε : ℚ) : Prop :=
  ∃ i j k : Fin 4, i < j ∧ j < k ∧ |cross (q.corner i) (q.corner j) (q.corner k)| ≤ ε

/-- Spec check 5 primitive: a proper crossing of segments `ab` and
`cd` — all four orientation cross products beyond `ε` with opposite
signs on both sides. -/
def specProperCrossing (a b c d : Point2D) (ε : ℚ) : Prop :=
  ((ε < cross a b c ∧ cross a b d < -ε) ∨ (cross a b c < -ε ∧ ε < cross a b d)) ∧
  ((ε < cross c d a ∧ cross c d b < -ε) ∨ (cross c d a < -ε ∧ ε < cross c d b))

/-- Spec check 5: a proper crossing of edge pair `(p0p1, p2p3)` or
`(p1p2, p3p0)`. -/
def specSelfIntersecting (q : Quad) (ε : ℚ) : Prop :=
  specProperCrossing q.p0 q.p1 q.p2 q.p3 ε ∨ specProperCrossing q.p1 q.p2 q.p3 q.p0 ε

instance (q : Quad) : Decidable (specDuplicate q) := by
  unfold specDuplicate; infer_instance

instance (q : Quad) (ε : ℚ) : Decidable (specCollinear q ε) := by
  unfold specCollinear; infer_instance

instance (a b c d : Point2D) (ε : ℚ) : Decidable (specProperCrossing a b c d ε) := by
  unfold specProperCrossing; infer_instance

instance (q : Quad) (ε : ℚ) : Decidable (specSelfIntersecting q ε) := by
  unfold specSelfIntersecting; infer_instance

/-- The validator as the claim words it: the five checks in order,
first failure winning, with the source's failure reasons. -/
def validateQuadSpec (q : Quad) (ε : ℚ) : Option String :=
  if specDuplicate q then some "Quad contains duplicate points."
  else if specCollinear q ε then some "Quad has collinear points."
  else if |quadArea q| ≤ ε then some "Quad area is too small."
  else if quadArea q ≤ 0 then some "Quad must be clockwise."
  else if specSelfIntersecting q ε then some "Quad is self-intersecting."
  else none

/-! ## Linear-algebra vocabulary for the solver proofs -/

/-- Matrix-vector product of the function-encoded square system. -/
def mulVec {n : ℕ} (A : Fin n → Fin n → ℚ) (v : Fin n → ℚ) : Fin n → ℚ :=
  fun r => ∑ c, A r c * v c

/-- The system matrix has trivial kernel. -/
def kerTrivial {n : ℕ} (A : Fin n → Fin n → ℚ) : Prop :=
  ∀ v, mulVec A v = 0 → v = 0

/-- Columns `c < k` of `A` agree with the identity matrix: the
Gauss-Jordan loop invariant before iteration `k`. -/
def IdBelow {n : ℕ} (k : ℕ) (A : Fin n → Fin n → ℚ) : Prop :=
  ∀ r c : Fin n, c.val < k → A r c = if r = c then 1 else 0

/-- The systems `(A, b)` and `(A', b')` have the same affine solution
set and the same homogeneous solution set. -/
def SysEquiv {n : ℕ} (A : Fin n → Fin n → ℚ) (b : Fin n → ℚ)
    (A' : Fin n → Fin n → ℚ) (b' : Fin n → ℚ) : Prop :=
  (∀ v, mulVec A v = b ↔ mulVec A' v = b') ∧ (∀ v, mulVec A v = 0 ↔ mulVec A' v = 0)

/-! ## Concrete instances used by the claims -/

/-- The spec's concrete scenario quad
`[(10,10), (210,10), (200,110), (0,100)]`. -/
def exampleQuad : Quad := ⟨⟨10, 10⟩, ⟨210, 10⟩, ⟨200, 110⟩, ⟨0, 100⟩⟩

/-- The exact solution of the scenario system (`width = 100`,
`height = 50`, `exampleQuad`). -/
def exampleSol : Fin 8 → ℚ :=
  fun i => match i with
  | 0 => 120 / 67
  | 1 => -1 / 5
  | 2 => 10
  | 3 => -2 / 201
  | 4 => 1799 / 1005
  | 5 => 10
  | 6 => -1 / 1005
  | 7 => -1 / 10050

/-- The scenario homography. -/
def exampleH : Matrix3x3 := solutionMatrix exampleSol

/-- A validator-accepted quad on which the solver pipeline degenerates:
corner 0 sits within `1e-15` of the line through corners 2 and 3 in
relative terms, yet all validator margins stay above `1e-6` because the
coordinates are large.  The exact homography maps the canonical corner
`(width, 0)` with w-component `1e-15 < W_EPSILON`. -/
def qStar : Quad :=
  ⟨⟨0, 1000000 - 1 / 1000000000⟩, ⟨1000000, 0⟩, ⟨1000000, 1000000⟩, ⟨0, 1000000⟩⟩

/-- The exact solution of the system (`width = 100`, `height = 50`,
`qStar`). -/
def qStarSol : Fin 8 → ℚ :=
  fun i => match i with
  | 0 => 1 / 100000000000
  | 1 => 0
  | 2 => 0
  | 3 => -999999999999999 / 100000000000
  | 4 => 1 / 50000000000
  | 5 => 999999999999999 / 1000000000
  | 6 => -999999999999999 / 100000000000000000
  | 7 => 0

/-- The homography the solver produces for `qStar` (production mode). -/
def qStarH : Matrix3x3 := solutionMatrix qStarSol

/-- A quad that is an axis-aligned rectangle traversed clockwise under
the y-down convention, with positive extents and positive shoelace
area. -/
def isAxisAlignedCWRect (q : Quad) : Prop :=
  q.p0.y = q.p1.y ∧ q.p1.x = q.p2.x ∧ q.p2.y = q.p3.y ∧ q.p3.x = q.p0.x ∧
  q.p0.x < q.p1.x ∧ q.p0.y < q.p3.y ∧ 0 < quadArea q

/-! # Lemmas and claim theorems -/

/-- C6: `scaleQuad(q, 1, 1)` with the default origin (the centroid of
`q`) returns `q` unchanged, corner for corner — for every quad, hence in
particular for every valid quad (identity law of scaling). -/
theorem scaleQuad_one_one_id : ∀ q : Quad, scaleQuad q 1 1 Option.none = q := by
  intro q
  unfold scaleQuad
  ext <;> simp <;> ring

/-- C8: the centroid (`getQuadCenter`, the arithmetic mean of the four
corners) of the axis-aligned rectangle quad built from `(x, y, w, h)`
equals `(x + w/2, y + h/2)`. -/
theorem getQuadCenter_quadFromRect :
    ∀ x y w h : ℚ, getQuadCenter (quadFromRect x y w h) = ⟨x + w / 2, y + h / 2⟩ := by
  intro x y w h
  unfold getQuadCenter quadFromRect
  ext <;> simp <;> ring

/-- C5: `applyHomography(H, p)` computes `x', y', w'` by the row-major
linear forms, fails with the degenerate-projection error exactly when
`|w'| < 1e-12`, and otherwise returns `(x'/w', y'/w')`. -/
theorem applyHomography_spec : ∀ (H : Matrix3x3) (p : Point2D),
    (applyHomography H p = .error "Homography w is ~0 (degenerate transform)" ↔
      |H.m20 * p.x + H.m21 * p.y + H.m22| < W_EPSILON) ∧
    (W_EPSILON ≤ |H.m20 * p.x + H.m21 * p.y + H.m22| →
      applyHomography H p =
        .ok ⟨(H.m00 * p.x + H.m01 * p.y + H.m02) / (H.m20 * p.x + H.m21 * p.y + H.m22),
             (H.m10 * p.x + H.m11 * p.y + H.m12) / (H.m20 * p.x + H.m21 * p.y + H.m22)⟩) := by
  intro H p
  simp only [applyHomography]
  refine ⟨⟨fun h => ?_, fun h => by rw [if_pos h]⟩, fun h => by rw [if_neg (not_lt.mpr h)]⟩
  by_contra hlt
  rw [if_neg hlt] at h
  exact absurd h (by simp)

/-- Witness for C5 at the identity homography and the point `(3, 4)`. -/
theorem applyHomography_spec_witness :
    applyHomography ⟨1, 0, 0, 0, 1, 0, 0, 0, 1⟩ ⟨3, 4⟩ =
      .ok ⟨(1 * 3 + 0 * 4 + 0) / (0 * 3 + 0 * 4 + 1), (0 * 3 + 1 * 4 + 0) / (0 * 3 + 0 * 4 + 1)⟩ :=
  (applyHomography_spec ⟨1, 0, 0, 0, 1, 0, 0, 0, 1⟩ ⟨3, 4⟩).2 (by norm_num [W_EPSILON])

/-- C2: whenever `applyHomography(H, p)` succeeds, multiplying the CSS
embedding `homographyToCssMatrix3d(H)` with the homogeneous point
`(p.x, p.y, 0, 1)` and perspective-dividing the resulting x and y by the
resulting w-component yields exactly the same point. -/
theorem cssEmbedding_roundtrip : ∀ (H : Matrix3x3) (p out : Point2D),
    applyHomography H p = .ok out →
    (mulMatrix4Vec4 (homographyToCssMatrix3d H) ⟨p.x, p.y, 0, 1⟩).w ≠ 0 ∧
    Point2D.mk
      ((mulMatrix4Vec4 (homographyToCssMatrix3d H) ⟨p.x, p.y, 0, 1⟩).x /
        (mulMatrix4Vec4 (homographyToCssMatrix3d H) ⟨p.x, p.y, 0, 1⟩).w)
      ((mulMatrix4Vec4 (homographyToCssMatrix3d H) ⟨p.x, p.y, 0, 1⟩).y /
        (mulMatrix4Vec4 (homographyToCssMatrix3d H) ⟨p.x, p.y, 0, 1⟩).w) = out := by
  intro H p out h
  simp only [applyHomography] at h
  by_cases hw : |H.m20 * p.x + H.m21 * p.y + H.m22| < W_EPSILON
  · rw [if_pos hw] at h
    exact absurd h (by simp)
  · rw [if_neg hw] at h
    injection h with h'
    subst h'
    push_neg at hw
    have hε : (0 : ℚ) < W_EPSILON := by norm_num [W_EPSILON]
    have hw0 : H.m20 * p.x + H.m21 * p.y + H.m22 ≠ 0 := by
      intro h0
      rw [h0] at hw
      simp at hw
      exact absurd (lt_of_le_of_lt hw hε) (lt_irrefl _)
    have hwe : (mulMatrix4Vec4 (homographyToCssMatrix3d H) ⟨p.x, p.y, 0, 1⟩).w =
        H.m20 * p.x + H.m21 * p.y + H.m22 := by
      simp only [mulMatrix4Vec4, homographyToCssMatrix3d]
      ring
    have hxe : (mulMatrix4Vec4 (homographyToCssMatrix3d H) ⟨p.x, p.y, 0, 1⟩).x =
        H.m00 * p.x + H.m01 * p.y + H.m02 := by
      simp only [mulMatrix4Vec4, homographyToCssMatrix3d]
      ring
    have hye : (mulMatrix4Vec4 (homographyToCssMatrix3d H) ⟨p.x, p.y, 0, 1⟩).y =
        H.m10 * p.x + H.m11 * p.y + H.m12 := by
      simp only [mulMatrix4Vec4, homographyToCssMatrix3d]
      ring
    rw [hwe, hxe, hye]
    exact ⟨hw0, rfl⟩

/-- Witness for C2 at the identity homography and the point `(3, 4)`. -/
theorem cssEmbedding_roundtrip_witness :
    (mulMatrix4Vec4 (homographyToCssMatrix3d ⟨1, 0, 0, 0, 1, 0, 0, 0, 1⟩) ⟨(3 : ℚ), 4, 0, 1⟩).w ≠ 0 ∧
    Point2D.mk
      ((mulMatrix4Vec4 (homographyToCssMatrix3d ⟨1, 0, 0, 0, 1, 0, 0, 0, 1⟩) ⟨(3 : ℚ), 4, 0, 1⟩).x /
        (mulMatrix4Vec4 (homographyToCssMatrix3d ⟨1, 0, 0, 0, 1, 0, 0, 0, 1⟩) ⟨(3 : ℚ), 4, 0, 1⟩).w)
      ((mulMatrix4Vec4 (homographyToCssMatrix3d ⟨1, 0, 0, 0, 1, 0, 0, 0, 1⟩) ⟨(3 : ℚ), 4, 0, 1⟩).y /
        (mulMatrix4Vec4 (homographyToCssMatrix3d ⟨1, 0, 0, 0, 1, 0, 0, 0, 1⟩) ⟨(3 : ℚ), 4, 0, 1⟩).w) =
      ⟨3, 4⟩ :=
  cssEmbedding_roundtrip ⟨1, 0, 0, 0, 1, 0, 0, 0, 1⟩ ⟨3, 4⟩ ⟨3, 4⟩
    (by norm_num [applyHomography, W_EPSILON])

/-- The `safeContent` is positive whenever the stage dimension is. -/
theorem safeContent_pos {stage content : ℚ} (h : 0 < stage) :
    0 < safeContent stage content := by
  unfold safeContent
  split
  · assumption
  · exact h

/-- Substituting an already-safe content dimension changes nothing. -/
theorem safeContent_idem (stage content : ℚ) :
    safeContent stage (safeContent stage content) = safeContent stage content := by
  unfold safeContent
  split
  · rfl
  · simp

/-- Both components of the fullscreen target size are positive when the
stage dimensions are. -/
theorem fullscreenTarget_pos {sw sh : ℚ} (cw ch : ℚ) (fit : FullscreenFit)
    (hsw : 0 < sw) (hsh : 0 < sh) :
    0 < (fullscreenTarget sw sh cw ch fit).1 ∧ 0 < (fullscreenTarget sw sh cw ch fit).2 := by
  have hcw : 0 < safeContent sw cw := safeContent_pos hsw
  have hch : 0 < safeContent sh ch := safeContent_pos hsh
  cases fit with
  | stretch => exact ⟨hsw, hsh⟩
  | contain =>
      refine ⟨mul_pos hcw ?_, mul_pos hch ?_⟩ <;>
        exact lt_min (div_pos hsw hcw) (div_pos hsh hch)
  | cover =>
      refine ⟨mul_pos hcw ?_, mul_pos hch ?_⟩ <;>
        exact lt_of_lt_of_le (div_pos hsw hcw) (le_max_left _ _)

/-- The shoelace area of an axis-aligned rectangle quad. -/
theorem quadArea_quadFromRect (x y w h : ℚ) :
    quadArea (quadFromRect x y w h) = w * h := by
  unfold quadArea quadFromRect
  ring

/-- The `quadFromRect` with positive extents is an axis-aligned clockwise
rectangle. -/
theorem quadFromRect_isRect {x y w h : ℚ} (hw : 0 < w) (hh : 0 < h) :
    isAxisAlignedCWRect (quadFromRect x y w h) := by
  refine ⟨rfl, rfl, rfl, rfl, by simpa [quadFromRect] using hw, by simpa [quadFromRect] using hh, ?_⟩
  rw [quadArea_quadFromRect]
  exact mul_pos hw hh

/-- C10: for positive stage dimensions and arbitrary fit, align and
content dimensions, `computeFullscreenQuad` returns an axis-aligned
rectangle traversed clockwise under y-down: `q0.y = q1.y`,
`q1.x = q2.x`, `q2.y = q3.y`, `q3.x = q0.x`, with positive width
`q1.x - q0.x`, positive height `q3.y - q0.y` and positive shoelace
area. -/
theorem computeFullscreenQuad_isRect :
    ∀ (sw sh cw ch : ℚ) (fit : FullscreenFit) (al : FullscreenAlign),
    0 < sw → 0 < sh → isAxisAlignedCWRect (computeFullscreenQuad sw sh cw ch fit al) := by
  intro sw sh cw ch fit al hsw hsh
  obtain ⟨h1, h2⟩ := @fullscreenTarget_pos sw sh cw ch fit hsw hsh
  exact quadFromRect_isRect h1 h2

/-- Witness for C10 at the concrete fullscreen scenario. -/
theorem computeFullscreenQuad_isRect_witness :
    isAxisAlignedCWRect (computeFullscreenQuad 1000 500 400 400 .contain .center) :=
  computeFullscreenQuad_isRect 1000 500 400 400 .contain .center (by norm_num) (by norm_num)

/-- The `contain` produces the largest aspect-preserving size fitting inside
the stage. -/
theorem fullscreenTarget_contain {sw sh cw ch : ℚ}
    (hsw : 0 < sw) (hsh : 0 < sh) (hcw : 0 < cw) (hch : 0 < ch) :
    (fullscreenTarget sw sh cw ch .contain).1 ≤ sw ∧
    (fullscreenTarget sw sh cw ch .contain).2 ≤ sh ∧
    (fullscreenTarget sw sh cw ch .contain).2 * cw =
      (fullscreenTarget sw sh cw ch .contain).1 * ch ∧
    (∀ tw th : ℚ, tw ≤ sw → th ≤ sh → th * cw = tw * ch →
      tw ≤ (fullscreenTarget sw sh cw ch .contain).1 ∧
      th ≤ (fullscreenTarget sw sh cw ch .contain).2) := by
  have hscw : safeContent sw cw = cw := if_pos hcw
  have hsch : safeContent sh ch = ch := if_pos hch
  simp only [fullscreenTarget, hscw, hsch]
  have hw : sw / cw * cw = sw := div_mul_cancel₀ sw hcw.ne'
  have hh : sh / ch * ch = sh := div_mul_cancel₀ sh hch.ne'
  refine ⟨?_, ?_, by ring, ?_⟩
  · calc cw * min (sw / cw) (sh / ch) ≤ cw * (sw / cw) :=
          mul_le_mul_of_nonneg_left (min_le_left _ _) hcw.le
      _ = sw := by rw [mul_comm, hw]
  · calc ch * min (sw / cw) (sh / ch) ≤ ch * (sh / ch) :=
          mul_le_mul_of_nonneg_left (min_le_right _ _) hch.le
      _ = sh := by rw [mul_comm, hh]
  · intro tw th h1 h2 h3
    rcases min_cases (sw / cw) (sh / ch) with ⟨he, hle⟩ | ⟨he, hle⟩ <;> rw [he]
    · constructor
      · rw [mul_comm, hw]; exact h1
      · have hbound : th * cw ≤ sw * ch := by
          rw [h3]; exact mul_le_mul_of_nonneg_right h1 hch.le
        have : ch * (sw / cw) = sw * ch / cw := by ring
        rw [this]
        exact (le_div_iff hcw).mpr hbound
    · constructor
      · have hbound : tw * ch ≤ sh * cw := by
          rw [← h3]; exact mul_le_mul_of_nonneg_right h2 hcw.le
        have : cw * (sh / ch) = sh * cw / ch := by ring
        rw [this]
        exact (le_div_iff hch).mpr hbound
      · rw [mul_comm, hh]; exact h2

/-- The `cover` produces the smallest aspect-preserving size covering the
stage. -/
theorem fullscreenTarget_cover {sw sh cw ch : ℚ}
    (hsw : 0 < sw) (hsh : 0 < sh) (hcw : 0 < cw) (hch : 0 < ch) :
    sw ≤ (fullscreenTarget sw sh cw ch .cover).1 ∧
    sh ≤ (fullscreenTarget sw sh cw ch .cover).2 ∧
    (fullscreenTarget sw sh cw ch .cover).2 * cw =
      (fullscreenTarget sw sh cw ch .cover).1 * ch ∧
    (∀ tw th : ℚ, sw ≤ tw → sh ≤ th → th * cw = tw * ch →
      (fullscreenTarget sw sh cw ch .cover).1 ≤ tw ∧
      (fullscreenTarget sw sh cw ch .cover).2 ≤ th) := by
  have hscw : safeContent sw cw = cw := if_pos hcw
  have hsch : safeContent sh ch = ch := if_pos hch
  simp only [fullscreenTarget, hscw, hsch]
  have hw : sw / cw * cw = sw := div_mul_cancel₀ sw hcw.ne'
  have hh : sh / ch * ch = sh := div_mul_cancel₀ sh hch.ne'
  refine ⟨?_, ?_, by ring, ?_⟩
  · calc sw = cw * (sw / cw) := by rw [mul_comm, hw]
      _ ≤ cw * max (sw / cw) (sh / ch) :=
          mul_le_mul_of_nonneg_left (le_max_left _ _) hcw.le
  · calc sh = ch * (sh / ch) := by rw [mul_comm, hh]
      _ ≤ ch * max (sw / cw) (sh / ch) :=
          mul_le_mul_of_nonneg_left (le_max_right _ _) hch.le
  · intro tw th h1 h2 h3
    rcases max_cases (sw / cw) (sh / ch) with ⟨he, hle⟩ | ⟨he, hle⟩ <;> rw [he]
    · constructor
      · rw [mul_comm, hw]; exact h1
      · have hbound : sw * ch ≤ th * cw := by
          rw [h3]; exact mul_le_mul_of_nonneg_right h1 hch.le
        have : ch * (sw / cw) = sw * ch / cw := by ring
        rw [this]
        exact (div_le_iff hcw).mpr hbound
    · constructor
      · have hbound : sh * cw ≤ tw * ch := by
          rw [← h3]; exact mul_le_mul_of_nonneg_right h2 hcw.le
        have : cw * (sh / ch) = sh * cw / ch := by ring
        rw [this]
        exact (div_le_iff hch).mpr hbound
      · rw [mul_comm, hh]; exact h2

/-- C7: `computeFullscreenQuad` realises the stated fit and align
semantics — `stretch` uses the stage size, `contain` the largest
aspect-preserving size fitting inside the stage, `cover` the smallest
aspect-preserving size covering the stage; the align anchor places the
target rectangle inside the stage per the five-case table; a
non-positive content dimension is replaced by the stage dimension; and
the concrete scenario `(1000, 500, 400, 400, contain, center)` yields
the quad `[(250,0), (750,0), (750,500), (250,500)]`. -/
theorem computeFullscreenQuad_spec :
    (∀ sw sh cw ch : ℚ, fullscreenTarget sw sh cw ch .stretch = (sw, sh)) ∧
    (∀ sw sh cw ch : ℚ, 0 < sw → 0 < sh → 0 < cw → 0 < ch →
      (fullscreenTarget sw sh cw ch .contain).1 ≤ sw ∧
      (fullscreenTarget sw sh cw ch .contain).2 ≤ sh ∧
      (fullscreenTarget sw sh cw ch .contain).2 * cw =
        (fullscreenTarget sw sh cw ch .contain).1 * ch ∧
      (∀ tw th : ℚ, tw ≤ sw → th ≤ sh → th * cw = tw * ch →
        tw ≤ (fullscreenTarget sw sh cw ch .contain).1 ∧
        th ≤ (fullscreenTarget sw sh cw ch .contain).2)) ∧
    (∀ sw sh cw ch : ℚ, 0 < sw → 0 < sh → 0 < cw → 0 < ch →
      sw ≤ (fullscreenTarget sw sh cw ch .cover).1 ∧
      sh ≤ (fullscreenTarget sw sh cw ch .cover).2 ∧
      (fullscreenTarget sw sh cw ch .cover).2 * cw =
        (fullscreenTarget sw sh cw ch .cover).1 * ch ∧
      (∀ tw th : ℚ, sw ≤ tw → sh ≤ th → th * cw = tw * ch →
        (fullscreenTarget sw sh cw ch .cover).1 ≤ tw ∧
        (fullscreenTarget sw sh cw ch .cover).2 ≤ th)) ∧
    (∀ sw sh tw th : ℚ,
      fullscreenOffset sw sh tw th .center = ((sw - tw) / 2, (sh - th) / 2) ∧
      fullscreenOffset sw sh tw th .topLeft = (0, 0) ∧
      fullscreenOffset sw sh tw th .topRight = (sw - tw, 0) ∧
      fullscreenOffset sw sh tw th .bottomLeft = (0, sh - th) ∧
      fullscreenOffset sw sh tw th .bottomRight = (sw - tw, sh - th)) ∧
    (∀ (sw sh cw ch : ℚ) (fit : FullscreenFit) (al : FullscreenAlign),
      computeFullscreenQuad sw sh cw ch fit al =
        quadFromRect
          (fullscreenOffset sw sh (fullscreenTarget sw sh cw ch fit).1
            (fullscreenTarget sw sh cw ch fit).2 al).1
          (fullscreenOffset sw sh (fullscreenTarget sw sh cw ch fit).1
            (fullscreenTarget sw sh cw ch fit).2 al).2
          (fullscreenTarget sw sh cw ch fit).1 (fullscreenTarget sw sh cw ch fit).2) ∧
    (∀ (sw sh cw ch : ℚ) (fit : FullscreenFit) (al : FullscreenAlign),
      computeFullscreenQuad sw sh cw ch fit al =
        computeFullscreenQuad sw sh (safeContent sw cw) (safeContent sh ch) fit al) ∧
    computeFullscreenQuad 1000 500 400 400 .contain .center =
      ⟨⟨250, 0⟩, ⟨750, 0⟩, ⟨750, 500⟩, ⟨250, 500⟩⟩ := by
  refine ⟨fun _ _ _ _ => rfl,
    fun sw sh cw ch h1 h2 h3 h4 => fullscreenTarget_contain h1 h2 h3 h4,
    fun sw sh cw ch h1 h2 h3 h4 => fullscreenTarget_cover h1 h2 h3 h4,
    fun _ _ _ _ => ⟨rfl, rfl, rfl, rfl, rfl⟩,
    fun _ _ _ _ _ _ => rfl,
    fun sw sh cw ch fit al => ?_, ?_⟩
  · simp only [computeFullscreenQuad, fullscreenTarget, safeContent_idem]
  · norm_num [computeFullscreenQuad, fullscreenTarget, fullscreenOffset, safeContent,
      quadFromRect, min_def]

/-- Witness for C7: the contain characterisation instantiated at the
concrete scenario. -/
theorem computeFullscreenQuad_spec_witness :
    (fullscreenTarget 1000 500 400 400 .contain).1 ≤ 1000 ∧
    (fullscreenTarget 1000 500 400 400 .contain).2 ≤ 500 ∧
    (fullscreenTarget 1000 500 400 400 .contain).2 * 400 =
      (fullscreenTarget 1000 500 400 400 .contain).1 * 400 ∧
    (∀ tw th : ℚ, tw ≤ 1000 → th ≤ 500 → th * 400 = tw * 400 →
      tw ≤ (fullscreenTarget 1000 500 400 400 .contain).1 ∧
      th ≤ (fullscreenTarget 1000 500 400 400 .contain).2) :=
  computeFullscreenQuad_spec.2.1 1000 500 400 400 (by norm_num) (by norm_num)
    (by norm_num) (by norm_num)

/-- The `pointsEqual` decides point equality. -/
theorem pointsEqual_iff (a b : Point2D) : pointsEqual a b = true ↔ a = b := by
  simp [pointsEqual, Point2D.ext_iff]

/-- The unrolled duplicate-pair loop decides the spec's "some two points
exactly equal". -/
theorem hasDuplicatePoints_iff (q : Quad) :
    hasDuplicatePoints q = true ↔ specDuplicate q := by
  simp only [hasDuplicatePoints, Bool.or_eq_true, pointsEqual_iff]
  constructor
  · rintro (((((h | h) | h) | h) | h) | h)
    exacts [⟨0, 1, by decide, h⟩, ⟨0, 2, by decide, h⟩, ⟨0, 3, by decide, h⟩,
      ⟨1, 2, by decide, h⟩, ⟨1, 3, by decide, h⟩, ⟨2, 3, by decide, h⟩]
  · rintro ⟨i, j, hij, h⟩
    fin_cases i <;> fin_cases j <;>
      first
        | exact absurd hij (by decide)
        | simp_all [Quad.corner]

/-- The four-triplet collinearity loop decides the spec's "some 3-point
triple within ε of collinear". -/
theorem hasCollinearTriplet_iff (q : Quad) (ε : ℚ) :
    hasCollinearTriplet q ε = true ↔ specCollinear q ε := by
  simp only [hasCollinearTriplet, Bool.or_eq_true, decide_eq_true_eq]
  constructor
  · rintro (((h | h) | h) | h)
    exacts [⟨0, 1, 2, by decide, by decide, h⟩, ⟨0, 1, 3, by decide, by decide, h⟩,
      ⟨0, 2, 3, by decide, by decide, h⟩, ⟨1, 2, 3, by decide, by decide, h⟩]
  · rintro ⟨i, j, k, hij, hjk, h⟩
    fin_cases i <;> fin_cases j <;> fin_cases k <;>
      first
        | exact absurd hij (by decide)
        | exact absurd hjk (by decide)
        | simp_all [Quad.corner]

/-- The `segmentsIntersect` decides the spec's proper-crossing predicate. -/
theorem segmentsIntersect_iff (a b c d : Point2D) (ε : ℚ) :
    segmentsIntersect a b c d ε = true ↔ specProperCrossing a b c d ε := by
  simp only [segmentsIntersect, specProperCrossing]
  split
  · rename_i hsmall
    simp only [Bool.false_eq_true, false_iff]
    rintro ⟨(⟨h1, _⟩ | ⟨_, h2⟩), _⟩
    · exact absurd hsmall.1 (not_le.mpr (lt_of_lt_of_le h1 (le_abs_self _)))
    · exact absurd hsmall.2.1 (not_le.mpr (lt_of_lt_of_le h2 (le_abs_self _)))
  · simp

/-- The `isSelfIntersecting` decides the spec's two-edge-pair
self-intersection predicate. -/
theorem isSelfIntersecting_iff (q : Quad) (ε : ℚ) :
    isSelfIntersecting q ε = true ↔ specSelfIntersecting q ε := by
  simp [isSelfIntersecting, specSelfIntersecting, segmentsIntersect_iff]

/-- The source validator coincides with the spec-worded validator on
every quad and tolerance. -/
theorem validateQuad_eq_spec (q : Quad) (ε : ℚ) :
    validateQuad q ε = validateQuadSpec q ε := by
  have h4 : ((!isClockwiseQuad q) = true) ↔ quadArea q ≤ 0 := by
    simp [isClockwiseQuad, not_lt]
  simp only [validateQuad, validateQuadSpec, hasDuplicatePoints_iff,
    hasCollinearTriplet_iff, isSelfIntersecting_iff, h4]

/-- C3: `validateQuad` applies exactly the five spec checks in order
with first-failure-wins reasons, and in particular rejects a quad with
two identical points, a quad with three collinear corners, the
counter-clockwise mirror of a valid clockwise quad, and a bowtie
self-intersecting quad. -/
theorem validateQuad_spec_and_rejections :
    (∀ (q : Quad) (ε : ℚ), validateQuad q ε = validateQuadSpec q ε) ∧
    validateQuad ⟨⟨0, 0⟩, ⟨0, 0⟩, ⟨10, 0⟩, ⟨0, 10⟩⟩ DEFAULT_EPSILON =
      some "Quad contains duplicate points." ∧
    validateQuad ⟨⟨0, 0⟩, ⟨5, 0⟩, ⟨10, 0⟩, ⟨0, 10⟩⟩ DEFAULT_EPSILON =
      some "Quad has collinear points." ∧
    validateQuad ⟨⟨0, 0⟩, ⟨10, 0⟩, ⟨10, 10⟩, ⟨0, 10⟩⟩ DEFAULT_EPSILON = none ∧
    validateQuad ⟨⟨0, 0⟩, ⟨-10, 0⟩, ⟨-10, 10⟩, ⟨0, 10⟩⟩ DEFAULT_EPSILON =
      some "Quad must be clockwise." ∧
    validateQuad ⟨⟨0, 0⟩, ⟨10, 0⟩, ⟨0, 10⟩, ⟨9, 12⟩⟩ DEFAULT_EPSILON =
      some "Quad is self-intersecting." := by
  refine ⟨validateQuad_eq_spec, ?_, ?_, ?_, ?_, ?_⟩ <;>
    norm_num [validateQuad, hasDuplicatePoints, pointsEqual, hasCollinearTriplet,
      cross, quadArea, isClockwiseQuad, isSelfIntersecting, segmentsIntersect,
      DEFAULT_EPSILON]

/-- The only error a `gaussStep` produces is the singular-system
message. -/
theorem gaussStep_error {n : ℕ} (i : Fin n) (s : GaussState n) (e : String)
    (h : gaussStep i s = .error e) : e = "Homography system is singular." := by
  simp only [gaussStep] at h
  split at h
  · injection h with h'
    exact h'.symm
  · exact absurd h (by simp)

/-- The only error `gaussLoop` produces is the singular-system
message. -/
theorem gaussLoop_error {n : ℕ} :
    ∀ (m k : ℕ) (s : GaussState n) (e : String), n - k ≤ m →
      gaussLoop k s = .error e → e = "Homography system is singular." := by
  intro m
  induction m with
  | zero =>
      intro k s e hm h
      rw [gaussLoop, dif_neg (by omega)] at h
      exact absurd h (by simp)
  | succ m ih =>
      intro k s e hm h
      rw [gaussLoop] at h
      by_cases hk : k < n
      · rw [dif_pos hk] at h
        cases hs : gaussStep ⟨k, hk⟩ s with
        | error e' =>
            rw [hs] at h
            injection h with h'
            rw [← h']
            exact gaussStep_error _ _ _ hs
        | ok s' =>
            rw [hs] at h
            exact ih (k + 1) s' e (by omega) h
      · rw [dif_neg hk] at h
        exact absurd h (by simp)

/-- The only error `solveLinearSystem` produces is the singular-system
message. -/
theorem solveLinearSystem_error {n : ℕ} (A : Fin n → Fin n → ℚ) (b : Fin n → ℚ)
    (e : String) (h : solveLinearSystem A b = .error e) :
    e = "Homography system is singular." := by
  unfold solveLinearSystem at h
  cases hl : gaussLoop 0 (A, b) with
  | error e' =>
      rw [hl] at h
      injection h with h'
      rw [← h']
      exact gaussLoop_error n 0 (A, b) e' (by omega) hl
  | ok s => rw [hl] at h; exact absurd h (by simp)

/-- The only error `applyHomography` produces is the degenerate-w
message. -/
theorem applyHomography_error (H : Matrix3x3) (p : Point2D) (e : String)
    (h : applyHomography H p = .error e) :
    e = "Homography w is ~0 (degenerate transform)" := by
  simp only [applyHomography] at h
  split at h
  · injection h with h'
    exact h'.symm
  · exact absurd h (by simp)

/-- The only errors a `sanityStep` produces are the degenerate-w and
check-failure messages. -/
theorem sanityStep_error (width height : ℚ) (q : Quad) (H : Matrix3x3) (u : Unit)
    (i : Fin 4) (e : String) (h : sanityStep width height q H u i = .error e) :
    e = "Homography w is ~0 (degenerate transform)" ∨
      e = "Homography sanity check failed." := by
  unfold sanityStep at h
  split at h
  · rename_i e2 heq
    injection h with h'
    rw [← h']
    exact Or.inl (applyHomography_error _ _ _ heq)
  · rename_i mapped heq
    have h2 : (if DEFAULT_EPSILON < |mapped.x - (q.corner i).x| ∨
        DEFAULT_EPSILON < |mapped.y - (q.corner i).y| then
        (Except.error "Homography sanity check failed." : Except String Unit)
      else Except.ok u) = Except.error e := h
    split at h2
    · injection h2 with h'
      exact Or.inr h'.symm
    · exact absurd h2 (by simp)

/-- The errors the sanity-check fold can produce. -/
theorem sanity_fold_error (width height : ℚ) (q : Quad) (H : Matrix3x3) :
    ∀ (l : List (Fin 4)) (u : Unit) (e : String),
      l.foldlM (sanityStep width height q H) u = .error e →
      e = "Homography w is ~0 (degenerate transform)" ∨
        e = "Homography sanity check failed." := by
  intro l
  induction l with
  | nil =>
      intro u e h
      simp [List.foldlM_nil, pure, Except.pure] at h
  | cons x xs ih =>
      intro u e h
      rw [List.foldlM_cons] at h
      cases hs : sanityStep width height q H u x with
      | error e2 =>
          rw [hs] at h
          have hb : ((Except.error e2 : Except String Unit) >>= fun u' =>
              xs.foldlM (sanityStep width height q H) u') =
              (Except.error e2 : Except String Unit) := rfl
          rw [hb] at h
          injection h with h'
          rw [← h']
          exact sanityStep_error width height q H u x e2 hs
      | ok u' =>
          rw [hs] at h
          have hb : ((Except.ok u' : Except String Unit) >>= fun u'' =>
              xs.foldlM (sanityStep width height q H) u'') =
              xs.foldlM (sanityStep width height q H) u' := rfl
          rw [hb] at h
          exact ih u' e h

/-- The errors `sanityCheckRectToQuad` can produce. -/
theorem sanityCheckRectToQuad_error (width height : ℚ) (q : Quad) (H : Matrix3x3)
    (e : String) (h : sanityCheckRectToQuad width height q H = .error e) :
    e = "Homography w is ~0 (degenerate transform)" ∨
      e = "Homography sanity check failed." :=
  sanity_fold_error width height q H [0, 1, 2, 3] () e h

/-- Non-positive dimensions short-circuit `computeHomographyRectToQuad`. -/
theorem compute_dims_error (isProd : Bool) {width height : ℚ} (q : Quad)
    (h : width ≤ 0 ∨ height ≤ 0) :
    computeHomographyRectToQuad isProd width height q =
      .error "Width and height must be positive." := by
  unfold computeHomographyRectToQuad
  rw [if_pos h]

/-- A validator rejection propagates as an invalid-quad error. -/
theorem compute_invalid_error (isProd : Bool) {width height : ℚ} {q : Quad} {r : String}
    (hdim : ¬(width ≤ 0 ∨ height ≤ 0)) (hval : validateQuad q DEFAULT_EPSILON = some r) :
    computeHomographyRectToQuad isProd width height q = .error ("Invalid quad: " ++ r) := by
  unfold computeHomographyRectToQuad
  rw [if_neg hdim]
  simp only [hval]

/-- A solver failure propagates unchanged. -/
theorem compute_solve_error (isProd : Bool) {width height : ℚ} {q : Quad} {e : String}
    (hdim : ¬(width ≤ 0 ∨ height ≤ 0)) (hval : validateQuad q DEFAULT_EPSILON = none)
    (hsol : solveLinearSystem (rectToQuadMatrix width height q) (rectToQuadVec q) = .error e) :
    computeHomographyRectToQuad isProd width height q = .error e := by
  unfold computeHomographyRectToQuad
  rw [if_neg hdim]
  simp only [hval, hsol]

/-- In production mode the solved matrix is returned directly. -/
theorem compute_prod_ok {width height : ℚ} {q : Quad} {x : Fin 8 → ℚ}
    (hdim : ¬(width ≤ 0 ∨ height ≤ 0)) (hval : validateQuad q DEFAULT_EPSILON = none)
    (hsol : solveLinearSystem (rectToQuadMatrix width height q) (rectToQuadVec q) = .ok x) :
    computeHomographyRectToQuad true width height q = .ok (solutionMatrix x) := by
  unfold computeHomographyRectToQuad
  rw [if_neg hdim]
  simp only [hval, hsol, if_pos]

/-- In development mode a sanity-check failure propagates. -/
theorem compute_dev_error {width height : ℚ} {q : Quad} {x : Fin 8 → ℚ} {e : String}
    (hdim : ¬(width ≤ 0 ∨ height ≤ 0)) (hval : validateQuad q DEFAULT_EPSILON = none)
    (hsol : solveLinearSystem (rectToQuadMatrix width height q) (rectToQuadVec q) = .ok x)
    (hs : sanityCheckRectToQuad width height q (solutionMatrix x) = .error e) :
    computeHomographyRectToQuad false width height q = .error e := by
  unfold computeHomographyRectToQuad
  rw [if_neg hdim]
  simp only [hval, hsol, hs, Bool.false_eq_true, if_false]

/-- In development mode a passing sanity check returns the solved
matrix. -/
theorem compute_dev_ok {width height : ℚ} {q : Quad} {x : Fin 8 → ℚ} {u : Unit}
    (hdim : ¬(width ≤ 0 ∨ height ≤ 0)) (hval : validateQuad q DEFAULT_EPSILON = none)
    (hsol : solveLinearSystem (rectToQuadMatrix width height q) (rectToQuadVec q) = .ok x)
    (hs : sanityCheckRectToQuad width height q (solutionMatrix x) = .ok u) :
    computeHomographyRectToQuad false width height q = .ok (solutionMatrix x) := by
  unfold computeHomographyRectToQuad
  rw [if_neg hdim]
  simp only [hval, hsol, hs, Bool.false_eq_true, if_false]

/-- No invalid-quad message coincides with the invalid-dimensions
message. -/
theorem invalidQuad_msg_ne_dims (r : String) :
    "Invalid quad: " ++ r ≠ "Width and height must be positive." := by
  intro h
  have h2 := congrArg String.data h
  rw [String.data_append] at h2
  simp at h2

/-- No invalid-quad message coincides with the singular-system
message. -/
theorem invalidQuad_msg_ne_singular (r : String) :
    "Invalid quad: " ++ r ≠ "Homography system is singular." := by
  intro h
  have h2 := congrArg String.data h
  rw [String.data_append] at h2
  simp at h2

/-- No invalid-quad message coincides with the degenerate-w message. -/
theorem invalidQuad_msg_ne_wmsg (r : String) :
    "Invalid quad: " ++ r ≠ "Homography w is ~0 (degenerate transform)" := by
  intro h
  have h2 := congrArg String.data h
  rw [String.data_append] at h2
  simp at h2

/-- No invalid-quad message coincides with the sanity-check message. -/
theorem invalidQuad_msg_ne_check (r : String) :
    "Invalid quad: " ++ r ≠ "Homography sanity check failed." := by
  intro h
  have h2 := congrArg String.data h
  rw [String.data_append] at h2
  simp at h2

/-- Complete case analysis of `computeHomographyRectToQuad` outcomes. -/
theorem compute_shape (isProd : Bool) (width height : ℚ) (q : Quad) :
    ((width ≤ 0 ∨ height ≤ 0) ∧ computeHomographyRectToQuad isProd width height q =
        .error "Width and height must be positive.") ∨
    (¬(width ≤ 0 ∨ height ≤ 0) ∧ ∃ r, validateQuad q DEFAULT_EPSILON = some r ∧
        computeHomographyRectToQuad isProd width height q = .error ("Invalid quad: " ++ r)) ∨
    (¬(width ≤ 0 ∨ height ≤ 0) ∧ validateQuad q DEFAULT_EPSILON = none ∧
        ((∃ M, computeHomographyRectToQuad isProd width height q = .ok M) ∨
         (∃ e, computeHomographyRectToQuad isProd width height q = .error e ∧
            (e = "Homography system is singular." ∨
             e = "Homography w is ~0 (degenerate transform)" ∨
             e = "Homography sanity check failed.")))) := by
  by_cases hdim : width ≤ 0 ∨ height ≤ 0
  · exact Or.inl ⟨hdim, compute_dims_error isProd q hdim⟩
  · cases hval : validateQuad q DEFAULT_EPSILON with
    | some r =>
        exact Or.inr (Or.inl ⟨hdim, r, rfl, compute_invalid_error isProd hdim hval⟩)
    | none =>
        refine Or.inr (Or.inr ⟨hdim, rfl, ?_⟩)
        cases hsol : solveLinearSystem (rectToQuadMatrix width height q) (rectToQuadVec q) with
        | error e =>
            exact Or.inr ⟨e, compute_solve_error isProd hdim hval hsol,
              Or.inl (solveLinearSystem_error _ _ _ hsol)⟩
        | ok x =>
            cases isProd with
            | true => exact Or.inl ⟨solutionMatrix x, compute_prod_ok hdim hval hsol⟩
            | false =>
                cases hs : sanityCheckRectToQuad width height q (solutionMatrix x) with
                | error e2 =>
                    exact Or.inr ⟨e2, compute_dev_error hdim hval hsol hs,
                      Or.inr (sanityCheckRectToQuad_error _ _ _ _ _ hs)⟩
                | ok u => exact Or.inl ⟨solutionMatrix x, compute_dev_ok hdim hval hsol hs⟩

/-- Equal invalid-quad messages carry equal reasons. -/
theorem invalidQuad_msg_inj {r r' : String}
    (h : ("Invalid quad: " ++ r' : String) = "Invalid quad: " ++ r) : r' = r := by
  have h2 := congrArg String.data h
  rw [String.data_append, String.data_append] at h2
  have h3 := List.append_cancel_left h2
  cases r'
  cases r
  exact congrArg String.mk h3

/-- C4: `computeHomographyRectToQuad` fails with the invalid-dimensions
error exactly when `width ≤ 0` or `height ≤ 0` (checked before any quad
check), and — when both dimensions are positive — fails with an
invalid-quad error carrying the validator's reason exactly when
`validateQuad` rejects the quad at the default epsilon `1e-6`. -/
theorem computeHomography_error_spec :
    ∀ (isProd : Bool) (width height : ℚ) (q : Quad),
    (computeHomographyRectToQuad isProd width height q =
        .error "Width and height must be positive." ↔ width ≤ 0 ∨ height ≤ 0) ∧
    (∀ r : String, computeHomographyRectToQuad isProd width height q =
        .error ("Invalid quad: " ++ r) ↔
        (0 < width ∧ 0 < height ∧ validateQuad q DEFAULT_EPSILON = some r)) := by
  intro isProd width height q
  have hshape := compute_shape isProd width height q
  constructor
  · constructor
    · intro h
      rcases hshape with ⟨hdim, _⟩ | ⟨hdim, r, hval, hc⟩ | ⟨hdim, hval, hrest⟩
      · exact hdim
      · rw [hc] at h
        injection h with h'
        exact absurd h' (invalidQuad_msg_ne_dims r)
      · rcases hrest with ⟨M, hc⟩ | ⟨e, hc, he⟩
        · rw [hc] at h
          exact absurd h (by simp)
        · rw [hc] at h
          injection h with h'
          rcases he with he | he | he <;> rw [he] at h' <;> exact absurd h' (by decide)
    · exact fun h => compute_dims_error isProd q h
  · intro r
    constructor
    · intro h
      rcases hshape with ⟨hdim, hc⟩ | ⟨hdim, r', hval, hc⟩ | ⟨hdim, hval, hrest⟩
      · rw [hc] at h
        injection h with h'
        exact absurd h'.symm (invalidQuad_msg_ne_dims r)
      · rw [hc] at h
        injection h with h'
        have hr : r' = r := invalidQuad_msg_inj h'
        push_neg at hdim
        exact ⟨hdim.1, hdim.2, hr ▸ hval⟩
      · rcases hrest with ⟨M, hc⟩ | ⟨e, hc, he⟩
        · rw [hc] at h
          exact absurd h (by simp)
        · rw [hc] at h
          injection h with h'
          rcases he with he | he | he <;> rw [he] at h' <;>
            [exact absurd h'.symm (invalidQuad_msg_ne_singular r);
             exact absurd h'.symm (invalidQuad_msg_ne_wmsg r);
             exact absurd h'.symm (invalidQuad_msg_ne_check r)]
    · rintro ⟨hw, hh, hval⟩
      exact compute_invalid_error isProd (by push_neg; exact ⟨hw, hh⟩) hval

/-- Witness for C4: invalid dimensions and an invalid quad each produce
their specific error on a concrete input. -/
theorem computeHomography_error_spec_witness :
    computeHomographyRectToQuad false (-1) 50 exampleQuad =
      .error "Width and height must be positive." ∧
    computeHomographyRectToQuad false 100 50 ⟨⟨0, 0⟩, ⟨0, 0⟩, ⟨10, 0⟩, ⟨0, 10⟩⟩ =
      .error ("Invalid quad: " ++ "Quad contains duplicate points.") :=
  ⟨((computeHomography_error_spec false (-1) 50 exampleQuad).1).mpr (by norm_num),
   ((computeHomography_error_spec false 100 50 ⟨⟨0, 0⟩, ⟨0, 0⟩, ⟨10, 0⟩, ⟨0, 10⟩⟩).2
      "Quad contains duplicate points.").mpr
     ⟨by norm_num, by norm_num,
      by norm_num [validateQuad, hasDuplicatePoints, pointsEqual]⟩⟩

/-- C9 (amended): every operation is deterministic in its arguments
plus the environment flag, and the `NODE_ENV` read can only make the
outcome differ by letting the development-only sanity check fail: a
development-mode success is always the same result as production mode,
and a production-mode failure is the same failure in development
mode. -/
theorem compute_env_agreement :
    ∀ (width height : ℚ) (q : Quad),
    (∀ M, computeHomographyRectToQuad false width height q = .ok M →
       computeHomographyRectToQuad true width height q = .ok M) ∧
    (∀ e, computeHomographyRectToQuad true width height q = .error e →
       computeHomographyRectToQuad false width height q = .error e) := by
  intro width height q
  by_cases hdim : width ≤ 0 ∨ height ≤ 0
  · rw [compute_dims_error true q hdim, compute_dims_error false q hdim]
    exact ⟨fun M h => absurd h (by simp), fun e h => h⟩
  · cases hval : validateQuad q DEFAULT_EPSILON with
    | some r =>
        rw [compute_invalid_error true hdim hval, compute_invalid_error false hdim hval]
        exact ⟨fun M h => absurd h (by simp), fun e h => h⟩
    | none =>
        cases hsol : solveLinearSystem (rectToQuadMatrix width height q) (rectToQuadVec q) with
        | error e =>
            rw [compute_solve_error true hdim hval hsol,
              compute_solve_error false hdim hval hsol]
            exact ⟨fun M h => absurd h (by simp), fun e h => h⟩
        | ok x =>
            rw [compute_prod_ok hdim hval hsol]
            cases hs : sanityCheckRectToQuad width height q (solutionMatrix x) with
            | error e2 =>
                rw [compute_dev_error hdim hval hsol hs]
                exact ⟨fun M h => absurd h (by simp), fun e h => absurd h (by simp)⟩
            | ok u =>
                rw [compute_dev_ok hdim hval hsol hs]
                exact ⟨fun M h => h, fun e h => absurd h (by simp)⟩

/-- The pivot fold returns its accumulator or a list element. -/
theorem pivotFold_mem {n : ℕ} (A : Fin n → Fin n → ℚ) (i : Fin n) :
    ∀ (l : List (Fin n)) (a : Fin n),
      l.foldl (fun p r => if |A p i| < |A r i| then r else p) a = a ∨
      l.foldl (fun p r => if |A p i| < |A r i| then r else p) a ∈ l := by
  intro l
  induction l with
  | nil => intro a; exact Or.inl rfl
  | cons x xs ih =>
      intro a
      rw [List.foldl_cons]
      rcases ih (if |A a i| < |A x i| then x else a) with h | h
      · rw [h]
        by_cases hc : |A a i| < |A x i|
        · rw [if_pos hc]; exact Or.inr (List.mem_cons_self x xs)
        · rw [if_neg hc]; exact Or.inl rfl
      · exact Or.inr (List.mem_cons_of_mem x h)

/-- The pivot fold maximises `|A[·][i]|` over the accumulator and the
list. -/
theorem pivotFold_ge {n : ℕ} (A : Fin n → Fin n → ℚ) (i : Fin n) :
    ∀ (l : List (Fin n)) (a x : Fin n), (x = a ∨ x ∈ l) →
      |A x i| ≤ |A (l.foldl (fun p r => if |A p i| < |A r i| then r else p) a) i| := by
  intro l
  induction l with
  | nil =>
      rintro a x (rfl | hx)
      · exact le_refl _
      · exact absurd hx (List.not_mem_nil x)
  | cons y ys ih =>
      intro a x hx
      rw [List.foldl_cons]
      have ha : |A a i| ≤ |A (if |A a i| < |A y i| then y else a) i| := by
        by_cases hc : |A a i| < |A y i|
        · rw [if_pos hc]; exact hc.le
        · rw [if_neg hc]
      have hy : |A y i| ≤ |A (if |A a i| < |A y i| then y else a) i| := by
        by_cases hc : |A a i| < |A y i|
        · rw [if_pos hc]
        · rw [if_neg hc]; exact not_lt.mp hc
      rcases hx with rfl | hx
      · exact ha.trans (ih _ _ (Or.inl rfl))
      · rcases List.mem_cons.mp hx with rfl | hx
        · exact hy.trans (ih _ _ (Or.inl rfl))
        · exact ih _ _ (Or.inr hx)

/-- The pivot row is at or below row `i`. -/
theorem pivotSearch_ge_start {n : ℕ} (A : Fin n → Fin n → ℚ) (i : Fin n) :
    i ≤ pivotSearch A i := by
  unfold pivotSearch
  rcases pivotFold_mem A i ((List.finRange n).filter (fun r => i < r)) i with h | h
  · rw [h]
  · exact (of_decide_eq_true (List.mem_filter.mp h).2).le

/-- The pivot row maximises `|A[·][i]|` over rows `r ≥ i`. -/
theorem pivotSearch_ge {n : ℕ} (A : Fin n → Fin n → ℚ) (i r : Fin n) (hr : i ≤ r) :
    |A r i| ≤ |A (pivotSearch A i) i| := by
  unfold pivotSearch
  rcases eq_or_lt_of_le hr with rfl | hlt
  · exact pivotFold_ge A i _ i i (Or.inl rfl)
  · exact pivotFold_ge A i _ i r
      (Or.inr (List.mem_filter.mpr ⟨List.mem_finRange r, decide_eq_true hlt⟩))

/-- The `swapIdx` agrees with the transposition `Equiv.swap`. -/
theorem swapIdx_eq_swap {n : ℕ} (i p r : Fin n) : swapIdx i p r = Equiv.swap i p r :=
  (Equiv.swap_apply_def i p r).symm

/-- The `swapIdx` is an involution. -/
theorem swapIdx_invol {n : ℕ} (i p r : Fin n) : swapIdx i p (swapIdx i p r) = r := by
  rw [swapIdx_eq_swap, swapIdx_eq_swap, Equiv.swap_apply_self]

/-- The `swapIdx i i` is the identity at `i`. -/
theorem swapIdx_self {n : ℕ} (i p : Fin n) : swapIdx i p i = p := by
  unfold swapIdx
  rw [if_pos rfl]

/-- Reindexing both sides of a function equation along `swapIdx` is
harmless. -/
theorem swapIdx_funext_iff {n : ℕ} (i p : Fin n) (f g : Fin n → ℚ) :
    ((fun r => f (swapIdx i p r)) = fun r => g (swapIdx i p r)) ↔ f = g := by
  constructor
  · intro h
    funext r
    have h2 := congrFun h (swapIdx i p r)
    simpa [swapIdx_invol] using h2
  · intro h
    rw [h]

/-- The row swap preserves both solution sets. -/
theorem gaussSwap_sysEquiv {n : ℕ} (i p : Fin n) (s : GaussState n) :
    SysEquiv s.1 s.2 (gaussSwap i p s).1 (gaussSwap i p s).2 := by
  have hmv : ∀ v : Fin n → ℚ,
      mulVec (gaussSwap i p s).1 v = fun r => mulVec s.1 v (swapIdx i p r) := by
    intro v
    funext r
    rfl
  constructor
  · intro v
    rw [hmv v]
    have hb : (gaussSwap i p s).2 = fun r => s.2 (swapIdx i p r) := rfl
    rw [hb]
    exact (swapIdx_funext_iff i p (mulVec s.1 v) s.2).symm
  · intro v
    rw [hmv v]
    have h0 : (0 : Fin n → ℚ) = fun r => (0 : Fin n → ℚ) (swapIdx i p r) := rfl
    constructor
    · intro h
      rw [h0]
      exact (swapIdx_funext_iff i p (mulVec s.1 v) 0).mpr h
    · intro h
      refine (swapIdx_funext_iff i p (mulVec s.1 v) 0).mp ?_
      rw [← h0]
      exact h

/-- The row swap with a pivot row `p ≥ i` preserves the partial-identity
invariant. -/
theorem gaussSwap_IdBelow {n : ℕ} {i p : Fin n} {s : GaussState n} (hp : i ≤ p)
    (h : IdBelow i.val s.1) : IdBelow i.val (gaussSwap i p s).1 := by
  intro r c hc
  show s.1 (swapIdx i p r) c = ite _ _ _
  rw [h (swapIdx i p r) c hc]
  have hci : c ≠ i := by
    intro e
    rw [e] at hc
    omega
  have hcp : c ≠ p := by
    intro e
    rw [e] at hc
    have := hp
    rw [Fin.le_def] at this
    omega
  have : swapIdx i p r = c ↔ r = c := by
    unfold swapIdx
    split
    · rename_i h1
      subst h1
      simp [Ne.symm hcp, Ne.symm hci]
    · split
      · rename_i h1 h2
        subst h2
        simp [Ne.symm hci, Ne.symm hcp]
      · exact Iff.rfl
  by_cases he : r = c
  · rw [if_pos he, if_pos (this.mpr he)]
  · rw [if_neg he, if_neg (fun hx => he (this.mp hx))]

/-- Division by a fixed nonzero denominator is cancellable. -/
theorem div_cancel_iff {a b c : ℚ} (hc : c ≠ 0) : a / c = b / c ↔ a = b := by
  constructor
  · intro h
    field_simp at h
    exact h
  · intro h
    rw [h]

/-- When row `i` vanishes on columns `c < i`, normalising only columns
`c ≥ i` equals normalising the whole row. -/
theorem gaussNorm_entry {n : ℕ} {i : Fin n} {s : GaussState n}
    (hz : ∀ c : Fin n, c.val < i.val → s.1 i c = 0) :
    (gaussNorm i s).1 = fun r c => if r = i then s.1 r c / s.1 i i else s.1 r c := by
  funext r c
  show (if r = i ∧ i ≤ c then s.1 r c / s.1 i i else s.1 r c) = _
  by_cases hr : r = i
  · by_cases hc : i ≤ c
    · rw [if_pos ⟨hr, hc⟩, if_pos hr]
    · have hcz : s.1 i c = 0 := hz c (not_le.mp hc)
      rw [if_neg (fun h => hc h.2), if_pos hr, hr, hcz, zero_div]
  · rw [if_neg (fun h => hr h.1), if_neg hr]

/-- The normalised pivot entry is 1. -/
theorem gaussNorm_diag {n : ℕ} {i : Fin n} {s : GaussState n} (hpv : s.1 i i ≠ 0) :
    (gaussNorm i s).1 i i = 1 := by
  show (if i = i ∧ i ≤ i then s.1 i i / s.1 i i else s.1 i i) = 1
  rw [if_pos ⟨rfl, le_refl i⟩, div_self hpv]

/-- The matrix-vector product after normalisation. -/
theorem gaussNorm_mulVec {n : ℕ} {i : Fin n} {s : GaussState n}
    (hz : ∀ c : Fin n, c.val < i.val → s.1 i c = 0) (v : Fin n → ℚ) :
    mulVec (gaussNorm i s).1 v =
      fun r => if r = i then mulVec s.1 v r / s.1 i i else mulVec s.1 v r := by
  rw [gaussNorm_entry hz]
  funext r
  unfold mulVec
  by_cases hr : r = i
  · subst hr
    rw [if_pos rfl]
    calc ∑ c, (if r = r then s.1 r c / s.1 r r else s.1 r c) * v c
        = ∑ c, s.1 r c * v c / s.1 r r := by
          refine Finset.sum_congr rfl fun c _ => ?_
          rw [if_pos rfl, div_mul_eq_mul_div]
      _ = (∑ c, s.1 r c * v c) / s.1 r r := by rw [← Finset.sum_div]
  · rw [if_neg hr]
    refine Finset.sum_congr rfl fun c _ => ?_
    simp only [if_neg hr]

/-- Normalisation preserves the partial-identity invariant. -/
theorem gaussNorm_IdBelow {n : ℕ} {i : Fin n} {s : GaussState n}
    (h : IdBelow i.val s.1) : IdBelow i.val (gaussNorm i s).1 := by
  intro r c hc
  show (if r = i ∧ i ≤ c then s.1 r c / s.1 i i else s.1 r c) = _
  rw [if_neg (fun hx => absurd hx.2 (not_le.mpr (Fin.lt_def.mpr hc)))]
  exact h r c hc

/-- Normalisation preserves both solution sets. -/
theorem gaussNorm_sysEquiv {n : ℕ} {i : Fin n} {s : GaussState n} (hpv : s.1 i i ≠ 0)
    (hz : ∀ c : Fin n, c.val < i.val → s.1 i c = 0) :
    SysEquiv s.1 s.2 (gaussNorm i s).1 (gaussNorm i s).2 := by
  have hb : (gaussNorm i s).2 = fun r => if r = i then s.2 r / s.1 i i else s.2 r := rfl
  constructor
  · intro v
    rw [gaussNorm_mulVec hz v, hb, funext_iff, funext_iff]
    constructor
    · intro h r
      by_cases hr : r = i
      · rw [if_pos hr, if_pos hr, h r]
      · rw [if_neg hr, if_neg hr]
        exact h r
    · intro h r
      by_cases hr : r = i
      · have hh := h r
        rw [if_pos hr, if_pos hr] at hh
        exact (div_cancel_iff hpv).mp hh
      · have hh := h r
        rwa [if_neg hr, if_neg hr] at hh
  · intro v
    rw [gaussNorm_mulVec hz v]
    simp only [funext_iff, Pi.zero_apply]
    constructor
    · intro h r
      by_cases hr : r = i
      · rw [if_pos hr, h r, zero_div]
      · rw [if_neg hr]
        exact h r
    · intro h r
      by_cases hr : r = i
      · have hh := h r
        rw [if_pos hr] at hh
        exact (div_eq_zero_iff.mp hh).resolve_right hpv
      · have hh := h r
        rwa [if_neg hr] at hh

/-- When row `i` vanishes on columns `c < i`, eliminating only columns
`c ≥ i` equals eliminating the whole row. -/
theorem gaussElim_entry {n : ℕ} {i : Fin n} {s : GaussState n}
    (hz : ∀ c : Fin n, c.val < i.val → s.1 i c = 0) :
    (gaussElim i s).1 =
      fun r c => if r = i then s.1 r c else s.1 r c - s.1 r i * s.1 i c := by
  funext r c
  show (if r ≠ i ∧ i ≤ c then s.1 r c - s.1 r i * s.1 i c else s.1 r c) = _
  by_cases hr : r = i
  · rw [if_neg (fun h => h.1 hr), if_pos hr]
  · by_cases hc : i ≤ c
    · rw [if_pos ⟨hr, hc⟩, if_neg hr]
    · rw [if_neg (fun h => hc h.2), if_neg hr, hz c (not_le.mp hc), mul_zero, sub_zero]

/-- The matrix-vector product after elimination. -/
theorem gaussElim_mulVec {n : ℕ} {i : Fin n} {s : GaussState n}
    (hz : ∀ c : Fin n, c.val < i.val → s.1 i c = 0) (v : Fin n → ℚ) :
    mulVec (gaussElim i s).1 v =
      fun r => if r = i then mulVec s.1 v r
        else mulVec s.1 v r - s.1 r i * mulVec s.1 v i := by
  rw [gaussElim_entry hz]
  funext r
  unfold mulVec
  by_cases hr : r = i
  · rw [if_pos hr]
    refine Finset.sum_congr rfl fun c _ => ?_
    simp only [if_pos hr]
  · rw [if_neg hr]
    have key : ∀ c, ((fun r c => if r = i then s.1 r c
        else s.1 r c - s.1 r i * s.1 i c) r c) * v c
        = s.1 r c * v c - s.1 r i * (s.1 i c * v c) := by
      intro c
      simp only [if_neg hr]
      ring
    rw [Finset.sum_congr rfl (fun c _ => key c), Finset.sum_sub_distrib, ← Finset.mul_sum]

/-- Elimination preserves both solution sets. -/
theorem gaussElim_sysEquiv {n : ℕ} {i : Fin n} {s : GaussState n}
    (hz : ∀ c : Fin n, c.val < i.val → s.1 i c = 0) :
    SysEquiv s.1 s.2 (gaussElim i s).1 (gaussElim i s).2 := by
  have hb : (gaussElim i s).2 =
      fun r => if r ≠ i then s.2 r - s.1 r i * s.2 i else s.2 r := rfl
  constructor
  · intro v
    rw [gaussElim_mulVec hz v, hb, funext_iff, funext_iff]
    constructor
    · intro h r
      by_cases hr : r = i
      · rw [if_pos hr, if_neg (fun hx => hx hr)]
        exact h r
      · rw [if_neg hr, if_pos hr, h r, h i]
    · intro h r
      have hi := h i
      rw [if_pos rfl, if_neg (fun hx => hx rfl)] at hi
      by_cases hr : r = i
      · rw [hr]
        exact hi
      · have hrr := h r
        rw [if_neg hr, if_pos hr, hi] at hrr
        linarith [hrr]
  · intro v
    rw [gaussElim_mulVec hz v]
    simp only [funext_iff, Pi.zero_apply]
    constructor
    · intro h r
      by_cases hr : r = i
      · rw [if_pos hr]
        exact h r
      · rw [if_neg hr, h r, h i, mul_zero, sub_zero]
    · intro h r
      have hi := h i
      rw [if_pos rfl] at hi
      by_cases hr : r = i
      · rw [hr]
        exact hi
      · have hrr := h r
        rwa [if_neg hr, hi, mul_zero, sub_zero] at hrr

/-- After eliminating column `i` below a unit pivot, the
partial-identity invariant extends to column `i`. -/
theorem gaussElim_IdBelow {n : ℕ} {i : Fin n} {s : GaussState n}
    (hpid : IdBelow i.val s.1) (h1 : s.1 i i = 1) :
    IdBelow (i.val + 1) (gaussElim i s).1 := by
  intro r c hc
  show (if r ≠ i ∧ i ≤ c then s.1 r c - s.1 r i * s.1 i c else s.1 r c) = _
  by_cases hci : c = i
  · by_cases hr : r = c
    · rw [if_neg (fun hx => hx.1 (hr.trans hci)), if_pos hr, hr, hci, h1]
    · have hri : r ≠ i := fun e => hr (e.trans hci.symm)
      rw [if_pos ⟨hri, by rw [hci]⟩, if_neg hr, hci, h1, mul_one, sub_self]
  · have hlt : c.val < i.val := by
      rcases Nat.lt_succ_iff_lt_or_eq.mp hc with h | h
      · exact h
      · exact absurd (Fin.ext h) hci
    rw [if_neg (fun hx => absurd hx.2 (not_le.mpr (Fin.lt_def.mpr hlt)))]
    exact hpid r c hlt

/-- The `SysEquiv` is reflexive. -/
theorem sysEquiv_refl {n : ℕ} (A : Fin n → Fin n → ℚ) (b : Fin n → ℚ) :
    SysEquiv A b A b :=
  ⟨fun _ => Iff.rfl, fun _ => Iff.rfl⟩

/-- The `SysEquiv` is transitive. -/
theorem sysEquiv_trans {n : ℕ} {A A' A'' : Fin n → Fin n → ℚ}
    {b b' b'' : Fin n → ℚ}
    (h1 : SysEquiv A b A' b') (h2 : SysEquiv A' b' A'' b'') :
    SysEquiv A b A'' b'' :=
  ⟨fun v => (h1.1 v).trans (h2.1 v), fun v => (h1.2 v).trans (h2.2 v)⟩

/-- A full partial-identity matrix acts as the identity. -/
theorem mulVec_id_of_IdBelow {n : ℕ} {A : Fin n → Fin n → ℚ} (h : IdBelow n A)
    (v : Fin n → ℚ) : mulVec A v = v := by
  funext r
  unfold mulVec
  have expand : ∀ c : Fin n, A r c * v c = if c = r then v c else 0 := by
    intro c
    rw [h r c c.isLt]
    by_cases he : r = c
    · rw [if_pos he, if_pos he.symm, one_mul]
    · rw [if_neg he, if_neg (fun e => he e.symm), zero_mul]
  rw [Finset.sum_congr rfl (fun c _ => expand c), Finset.sum_ite_eq' Finset.univ r v,
    if_pos (Finset.mem_univ r)]

/-- A successful `gaussStep` extends the partial identity by one column
and preserves both solution sets. -/
theorem gaussStep_ok_inv {n : ℕ} {i : Fin n} {s s' : GaussState n}
    (hpid : IdBelow i.val s.1) (h : gaussStep i s = .ok s') :
    IdBelow (i.val + 1) s'.1 ∧ SysEquiv s.1 s.2 s'.1 s'.2 := by
  simp only [gaussStep] at h
  split at h
  · exact absurd h (by simp)
  · rename_i hmax
    injection h with h'
    set p := pivotSearch s.1 i with hpdef
    have hp : i ≤ p := pivotSearch_ge_start s.1 i
    have hpid1 : IdBelow i.val (gaussSwap i p s).1 := gaussSwap_IdBelow hp hpid
    have hpv1 : (gaussSwap i p s).1 i i ≠ 0 := by
      show s.1 (swapIdx i p i) i ≠ 0
      rw [swapIdx_self]
      exact fun e => hmax (by rw [e, abs_zero])
    have hz1 : ∀ c : Fin n, c.val < i.val → (gaussSwap i p s).1 i c = 0 := by
      intro c hc
      have hne : i ≠ c := fun e => by rw [e] at hc; exact lt_irrefl _ hc
      rw [hpid1 i c hc, if_neg hne]
    have hpid2 : IdBelow i.val (gaussNorm i (gaussSwap i p s)).1 := gaussNorm_IdBelow hpid1
    have hd2 : (gaussNorm i (gaussSwap i p s)).1 i i = 1 := gaussNorm_diag hpv1
    have hz2 : ∀ c : Fin n, c.val < i.val → (gaussNorm i (gaussSwap i p s)).1 i c = 0 := by
      intro c hc
      have hne : i ≠ c := fun e => by rw [e] at hc; exact lt_irrefl _ hc
      rw [hpid2 i c hc, if_neg hne]
    have e1 := gaussSwap_sysEquiv i p s
    have e2 := gaussNorm_sysEquiv hpv1 hz1
    have e3 := gaussElim_sysEquiv hz2
    have hpid3 := gaussElim_IdBelow hpid2 hd2
    rw [← h']
    exact ⟨hpid3, sysEquiv_trans (sysEquiv_trans e1 e2) e3⟩

/-- When the current matrix has trivial kernel, the pivot search cannot
come up empty: `gaussStep` succeeds. -/
theorem gaussStep_success {n : ℕ} {i : Fin n} {s : GaussState n}
    (hpid : IdBelow i.val s.1) (hker : ∀ v, mulVec s.1 v = 0 → v = 0) :
    ∃ s', gaussStep i s = .ok s' := by
  simp only [gaussStep]
  split
  · rename_i hmax
    exfalso
    have hcol : ∀ r : Fin n, i ≤ r → s.1 r i = 0 := by
      intro r hr
      have h1 := pivotSearch_ge s.1 i r hr
      rw [hmax] at h1
      exact abs_eq_zero.mp (le_antisymm h1 (abs_nonneg _))
    have hv0 := hker (fun c => if c.val < i.val then s.1 c i else if c = i then -1 else 0) ?_
    · have hvi := congrFun hv0 i
      norm_num at hvi
    · funext r
      unfold mulVec
      rw [Pi.zero_apply]
      rcases lt_or_ge r.val i.val with hr | hr
      · have hri : r ≠ i := fun e => by rw [e] at hr; exact lt_irrefl _ hr
        have expand : ∀ c : Fin n,
            s.1 r c * (if c.val < i.val then s.1 c i else if c = i then -1 else 0) =
            (if c = r then s.1 r i else 0) + (if c = i then -(s.1 r i) else 0) := by
          intro c
          by_cases hcr : c = r
          · subst hcr
            rw [if_pos hr, hpid c c hr, if_pos rfl, one_mul, if_pos rfl, if_neg hri,
              add_zero]
          · by_cases hci : c = i
            · subst hci
              rw [if_neg (lt_irrefl c.val), if_pos rfl, mul_neg_one, if_neg hcr,
                if_pos rfl, zero_add]
            · by_cases hlt : c.val < i.val
              · rw [if_pos hlt, hpid r c hlt, if_neg (fun e => hcr e.symm), zero_mul,
                  if_neg hcr, if_neg hci, add_zero]
              · rw [if_neg hlt, if_neg hci, mul_zero, if_neg hcr, if_neg hci, add_zero]
        rw [Finset.sum_congr rfl (fun c _ => expand c), Finset.sum_add_distrib,
          Finset.sum_ite_eq' Finset.univ r (fun _ => s.1 r i),
          Finset.sum_ite_eq' Finset.univ i (fun _ => -(s.1 r i)),
          if_pos (Finset.mem_univ r), if_pos (Finset.mem_univ i), add_neg_cancel]
      · have expand : ∀ c : Fin n,
            s.1 r c * (if c.val < i.val then s.1 c i else if c = i then -1 else 0) = 0 := by
          intro c
          by_cases hlt : c.val < i.val
          · rw [if_pos hlt, hpid r c hlt, if_neg (fun e => by rw [e] at hr; omega),
              zero_mul]
          · by_cases hci : c = i
            · rw [if_neg hlt, if_pos hci, hci, hcol r (Fin.le_def.mpr hr), zero_mul]
            · rw [if_neg hlt, if_neg hci, mul_zero]
        rw [Finset.sum_congr rfl (fun c _ => expand c), Finset.sum_const_zero]
  · exact ⟨_, rfl⟩

/-- The elimination loop succeeds on a kernel-trivial system, ending in
a full identity matrix while preserving both solution sets. -/
theorem gaussLoop_ok {n : ℕ} (A0 : Fin n → Fin n → ℚ) (b0 : Fin n → ℚ)
    (hker : kerTrivial A0) :
    ∀ (m k : ℕ) (s : GaussState n), n - k ≤ m → IdBelow k s.1 →
      SysEquiv A0 b0 s.1 s.2 →
      ∃ s', gaussLoop k s = .ok s' ∧ IdBelow n s'.1 ∧ SysEquiv A0 b0 s'.1 s'.2 := by
  intro m
  induction m with
  | zero =>
      intro k s hm hid he
      have hk : ¬ k < n := by omega
      rw [gaussLoop, dif_neg hk]
      exact ⟨s, rfl, fun r c hc => hid r c (by omega), he⟩
  | succ m ih =>
      intro k s hm hid he
      by_cases hk : k < n
      · have hkeri : ∀ v, mulVec s.1 v = 0 → v = 0 := fun v hv =>
          hker v ((he.2 v).mpr hv)
        obtain ⟨s1, hs1⟩ := @gaussStep_success n ⟨k, hk⟩ s hid hkeri
        obtain ⟨hid1, he1⟩ := @gaussStep_ok_inv n ⟨k, hk⟩ s s1 hid hs1
        obtain ⟨s', hloop, hid', he'⟩ :=
          ih (k + 1) s1 (by omega) hid1 (sysEquiv_trans he he1)
        refine ⟨s', ?_, hid', he'⟩
        rw [gaussLoop, dif_pos hk, hs1]
        exact hloop
      · rw [gaussLoop, dif_neg hk]
        exact ⟨s, rfl, fun r c hc => hid r c (by omega), he⟩

/-- On a kernel-trivial system, `solveLinearSystem` succeeds and
returns the unique solution. -/
theorem solveLinearSystem_exact {n : ℕ} (A0 : Fin n → Fin n → ℚ) (b0 : Fin n → ℚ)
    (hker : kerTrivial A0) :
    ∃ x, solveLinearSystem A0 b0 = .ok x ∧ ∀ v, (mulVec A0 v = b0 ↔ v = x) := by
  obtain ⟨s', hloop, hid, he⟩ := gaussLoop_ok A0 b0 hker n 0 (A0, b0) (by omega)
    (fun r c hc => absurd hc (by omega)) (sysEquiv_refl A0 b0)
  refine ⟨s'.2, ?_, ?_⟩
  · unfold solveLinearSystem
    rw [hloop]
  · intro v
    refine (he.1 v).trans ?_
    rw [mulVec_id_of_IdBelow hid v]

/-- The eight scalar equations of the rect-to-quad system. -/
theorem rectToQuad_equations (W H : ℚ) (q : Quad) (v : Fin 8 → ℚ) (b : Fin 8 → ℚ)
    (hv : mulVec (rectToQuadMatrix W H q) v = b) :
    (v 2 = b 0) ∧ (v 5 = b 1) ∧
    (W * v 0 + v 2 - q.p1.x * W * v 6 = b 2) ∧
    (W * v 3 + v 5 - q.p1.y * W * v 6 = b 3) ∧
    (W * v 0 + H * v 1 + v 2 - q.p2.x * W * v 6 - q.p2.x * H * v 7 = b 4) ∧
    (W * v 3 + H * v 4 + v 5 - q.p2.y * W * v 6 - q.p2.y * H * v 7 = b 5) ∧
    (H * v 1 + v 2 - q.p3.x * H * v 7 = b 6) ∧
    (H * v 4 + v 5 - q.p3.y * H * v 7 = b 7) := by
  refine ⟨?_, ?_, ?_, ?_, ?_, ?_, ?_, ?_⟩
  · have h := congrFun hv 0
    simp [mulVec, Fin.sum_univ_eight, rectToQuadMatrix, srcCorner, Quad.corner, show ((0:Fin 8):ℕ) = 0 from rfl, show ((1:Fin 8):ℕ) = 1 from rfl, show ((2:Fin 8):ℕ) = 2 from rfl, show ((3:Fin 8):ℕ) = 3 from rfl, show ((4:Fin 8):ℕ) = 4 from rfl, show ((5:Fin 8):ℕ) = 5 from rfl, show ((6:Fin 8):ℕ) = 6 from rfl, show ((7:Fin 8):ℕ) = 7 from rfl] at h
    linarith [h]
  · have h := congrFun hv 1
    simp [mulVec, Fin.sum_univ_eight, rectToQuadMatrix, srcCorner, Quad.corner, show ((0:Fin 8):ℕ) = 0 from rfl, show ((1:Fin 8):ℕ) = 1 from rfl, show ((2:Fin 8):ℕ) = 2 from rfl, show ((3:Fin 8):ℕ) = 3 from rfl, show ((4:Fin 8):ℕ) = 4 from rfl, show ((5:Fin 8):ℕ) = 5 from rfl, show ((6:Fin 8):ℕ) = 6 from rfl, show ((7:Fin 8):ℕ) = 7 from rfl] at h
    linarith [h]
  · have h := congrFun hv 2
    simp [mulVec, Fin.sum_univ_eight, rectToQuadMatrix, srcCorner, Quad.corner, show ((0:Fin 8):ℕ) = 0 from rfl, show ((1:Fin 8):ℕ) = 1 from rfl, show ((2:Fin 8):ℕ) = 2 from rfl, show ((3:Fin 8):ℕ) = 3 from rfl, show ((4:Fin 8):ℕ) = 4 from rfl, show ((5:Fin 8):ℕ) = 5 from rfl, show ((6:Fin 8):ℕ) = 6 from rfl, show ((7:Fin 8):ℕ) = 7 from rfl] at h
    linarith [h]
  · have h := congrFun hv 3
    simp [mulVec, Fin.sum_univ_eight, rectToQuadMatrix, srcCorner, Quad.corner, show ((0:Fin 8):ℕ) = 0 from rfl, show ((1:Fin 8):ℕ) = 1 from rfl, show ((2:Fin 8):ℕ) = 2 from rfl, show ((3:Fin 8):ℕ) = 3 from rfl, show ((4:Fin 8):ℕ) = 4 from rfl, show ((5:Fin 8):ℕ) = 5 from rfl, show ((6:Fin 8):ℕ) = 6 from rfl, show ((7:Fin 8):ℕ) = 7 from rfl] at h
    linarith [h]
  · have h := congrFun hv 4
    simp [mulVec, Fin.sum_univ_eight, rectToQuadMatrix, srcCorner, Quad.corner, show ((0:Fin 8):ℕ) = 0 from rfl, show ((1:Fin 8):ℕ) = 1 from rfl, show ((2:Fin 8):ℕ) = 2 from rfl, show ((3:Fin 8):ℕ) = 3 from rfl, show ((4:Fin 8):ℕ) = 4 from rfl, show ((5:Fin 8):ℕ) = 5 from rfl, show ((6:Fin 8):ℕ) = 6 from rfl, show ((7:Fin 8):ℕ) = 7 from rfl] at h
    linarith [h]
  · have h := congrFun hv 5
    simp [mulVec, Fin.sum_univ_eight, rectToQuadMatrix, srcCorner, Quad.corner, show ((0:Fin 8):ℕ) = 0 from rfl, show ((1:Fin 8):ℕ) = 1 from rfl, show ((2:Fin 8):ℕ) = 2 from rfl, show ((3:Fin 8):ℕ) = 3 from rfl, show ((4:Fin 8):ℕ) = 4 from rfl, show ((5:Fin 8):ℕ) = 5 from rfl, show ((6:Fin 8):ℕ) = 6 from rfl, show ((7:Fin 8):ℕ) = 7 from rfl] at h
    linarith [h]
  · have h := congrFun hv 6
    simp [mulVec, Fin.sum_univ_eight, rectToQuadMatrix, srcCorner, Quad.corner, show ((0:Fin 8):ℕ) = 0 from rfl, show ((1:Fin 8):ℕ) = 1 from rfl, show ((2:Fin 8):ℕ) = 2 from rfl, show ((3:Fin 8):ℕ) = 3 from rfl, show ((4:Fin 8):ℕ) = 4 from rfl, show ((5:Fin 8):ℕ) = 5 from rfl, show ((6:Fin 8):ℕ) = 6 from rfl, show ((7:Fin 8):ℕ) = 7 from rfl] at h
    linarith [h]
  · have h := congrFun hv 7
    simp [mulVec, Fin.sum_univ_eight, rectToQuadMatrix, srcCorner, Quad.corner, show ((0:Fin 8):ℕ) = 0 from rfl, show ((1:Fin 8):ℕ) = 1 from rfl, show ((2:Fin 8):ℕ) = 2 from rfl, show ((3:Fin 8):ℕ) = 3 from rfl, show ((4:Fin 8):ℕ) = 4 from rfl, show ((5:Fin 8):ℕ) = 5 from rfl, show ((6:Fin 8):ℕ) = 6 from rfl, show ((7:Fin 8):ℕ) = 7 from rfl] at h
    linarith [h]

/-- The rect-to-quad system has trivial kernel whenever the dimensions
are nonzero, corners 1, 2, 3 are not collinear, and corners 2 and 3 are
distinct — all guaranteed by the validator. -/
theorem rectToQuad_kerTrivial (W H : ℚ) (q : Quad) (hW : W ≠ 0) (hH : H ≠ 0)
    (hc : cross q.p1 q.p2 q.p3 ≠ 0) (hd : q.p2 ≠ q.p3) :
    kerTrivial (rectToQuadMatrix W H q) := by
  intro v hv
  obtain ⟨e0, e1, e2, e3, e4, e5, e6, e7⟩ := rectToQuad_equations W H q v 0 hv
  simp only [Pi.zero_apply] at e0 e1 e2 e3 e4 e5 e6 e7
  have E1 : W * v 6 * (q.p1.x - q.p2.x) + H * v 7 * (q.p3.x - q.p2.x) = 0 := by
    linear_combination e4 - e2 - e6 + e0
  have E2 : W * v 6 * (q.p1.y - q.p2.y) + H * v 7 * (q.p3.y - q.p2.y) = 0 := by
    linear_combination e5 - e3 - e7 + e1
  have E3 : W * v 6 * cross q.p2 q.p1 q.p3 = 0 := by
    simp only [cross]
    linear_combination (q.p3.y - q.p2.y) * E1 - (q.p3.x - q.p2.x) * E2
  have hc2 : cross q.p2 q.p1 q.p3 ≠ 0 := by
    intro h0
    apply hc
    have hswap : cross q.p1 q.p2 q.p3 = -cross q.p2 q.p1 q.p3 := by
      unfold cross
      ring
    rw [hswap, h0, neg_zero]
  have ha : W * v 6 = 0 := (mul_eq_zero.mp E3).resolve_right hc2
  have hbx : H * v 7 * (q.p3.x - q.p2.x) = 0 := by
    linear_combination E1 - (q.p1.x - q.p2.x) * ha
  have hby : H * v 7 * (q.p3.y - q.p2.y) = 0 := by
    linear_combination E2 - (q.p1.y - q.p2.y) * ha
  have hb : H * v 7 = 0 := by
    by_contra hne
    apply hd
    ext
    · have hx := (mul_eq_zero.mp hbx).resolve_left hne
      linarith
    · have hy := (mul_eq_zero.mp hby).resolve_left hne
      linarith
  have h6 : v 6 = 0 := (mul_eq_zero.mp ha).resolve_left hW
  have h7 : v 7 = 0 := (mul_eq_zero.mp hb).resolve_left hH
  have h0 : v 0 = 0 := by
    have hw0 : W * v 0 = 0 := by
      linear_combination e2 - e0 + (q.p1.x * W) * h6
    exact (mul_eq_zero.mp hw0).resolve_left hW
  have h3 : v 3 = 0 := by
    have hw3 : W * v 3 = 0 := by
      linear_combination e3 - e1 + (q.p1.y * W) * h6
    exact (mul_eq_zero.mp hw3).resolve_left hW
  have h1 : v 1 = 0 := by
    have hh1 : H * v 1 = 0 := by
      linear_combination e6 - e0 + (q.p3.x * H) * h7
    exact (mul_eq_zero.mp hh1).resolve_left hH
  have h4 : v 4 = 0 := by
    have hh4 : H * v 4 = 0 := by
      linear_combination e7 - e1 + (q.p3.y * H) * h7
    exact (mul_eq_zero.mp hh4).resolve_left hH
  funext r
  rw [Pi.zero_apply]
  fin_cases r
  · exact h0
  · exact h1
  · exact e0
  · exact h3
  · exact h4
  · exact e1
  · exact h6
  · exact h7

/-- An exact solution of the rect-to-quad system satisfies the
projective interpolation identities at the four canonical corners. -/
theorem solution_identity {W H : ℚ} {q : Quad} {x : Fin 8 → ℚ}
    (hx : mulVec (rectToQuadMatrix W H q) x = rectToQuadVec q) :
    ∀ i : Fin 4,
      x 0 * (srcCorner W H i).x + x 1 * (srcCorner W H i).y + x 2 =
        (q.corner i).x * (x 6 * (srcCorner W H i).x + x 7 * (srcCorner W H i).y + 1) ∧
      x 3 * (srcCorner W H i).x + x 4 * (srcCorner W H i).y + x 5 =
        (q.corner i).y * (x 6 * (srcCorner W H i).x + x 7 * (srcCorner W H i).y + 1) := by
  obtain ⟨e0, e1, e2, e3, e4, e5, e6, e7⟩ :=
    rectToQuad_equations W H q x (rectToQuadVec q) hx
  simp only [rectToQuadVec, Quad.corner, show ((0:Fin 8):ℕ) = 0 from rfl,
    show ((1:Fin 8):ℕ) = 1 from rfl, show ((2:Fin 8):ℕ) = 2 from rfl,
    show ((3:Fin 8):ℕ) = 3 from rfl, show ((4:Fin 8):ℕ) = 4 from rfl,
    show ((5:Fin 8):ℕ) = 5 from rfl, show ((6:Fin 8):ℕ) = 6 from rfl,
    show ((7:Fin 8):ℕ) = 7 from rfl] at e0 e1 e2 e3 e4 e5 e6 e7
  norm_num at e0 e1 e2 e3 e4 e5 e6 e7
  intro i
  fin_cases i <;> constructor <;> simp [srcCorner, Quad.corner]
  · linarith [e0]
  · linarith [e1]
  · linear_combination e2
  · linear_combination e3
  · linear_combination e4
  · linear_combination e5
  · linear_combination e6
  · linear_combination e7

/-- The w-component of the solved homography at a canonical corner. -/
theorem solution_wComponent {W H : ℚ} (x : Fin 8 → ℚ) (i : Fin 4) :
    wComponent (solutionMatrix x) (srcCorner W H i) =
      x 6 * (srcCorner W H i).x + x 7 * (srcCorner W H i).y + 1 := rfl

/-- A canonical corner whose w-component clears `W_EPSILON` is
projected by the solved homography exactly onto its quad corner. -/
theorem solution_applies {W H : ℚ} {q : Quad} {x : Fin 8 → ℚ}
    (hx : mulVec (rectToQuadMatrix W H q) x = rectToQuadVec q) (i : Fin 4)
    (hm : W_EPSILON ≤ |wComponent (solutionMatrix x) (srcCorner W H i)|) :
    applyHomography (solutionMatrix x) (srcCorner W H i) = .ok (q.corner i) := by
  obtain ⟨hxi, hyi⟩ := solution_identity hx i
  have hε : (0 : ℚ) < W_EPSILON := by norm_num [W_EPSILON]
  have hwne : x 6 * (srcCorner W H i).x + x 7 * (srcCorner W H i).y + 1 ≠ 0 := by
    intro h0
    rw [solution_wComponent x i, h0, abs_zero] at hm
    linarith
  simp only [applyHomography]
  split
  · rename_i hlt
    exact absurd hlt (not_lt.mpr hm)
  · refine congrArg Except.ok ?_
    ext
    · show ((solutionMatrix x).m00 * (srcCorner W H i).x +
          (solutionMatrix x).m01 * (srcCorner W H i).y + (solutionMatrix x).m02) /
          ((solutionMatrix x).m20 * (srcCorner W H i).x +
          (solutionMatrix x).m21 * (srcCorner W H i).y + (solutionMatrix x).m22) =
          (q.corner i).x
      rw [show (solutionMatrix x).m00 * (srcCorner W H i).x +
          (solutionMatrix x).m01 * (srcCorner W H i).y + (solutionMatrix x).m02 =
          (q.corner i).x * ((solutionMatrix x).m20 * (srcCorner W H i).x +
          (solutionMatrix x).m21 * (srcCorner W H i).y + (solutionMatrix x).m22) from hxi]
      exact mul_div_cancel_right₀ _ hwne
    · show ((solutionMatrix x).m10 * (srcCorner W H i).x +
          (solutionMatrix x).m11 * (srcCorner W H i).y + (solutionMatrix x).m12) /
          ((solutionMatrix x).m20 * (srcCorner W H i).x +
          (solutionMatrix x).m21 * (srcCorner W H i).y + (solutionMatrix x).m22) =
          (q.corner i).y
      rw [show (solutionMatrix x).m10 * (srcCorner W H i).x +
          (solutionMatrix x).m11 * (srcCorner W H i).y + (solutionMatrix x).m12 =
          (q.corner i).y * ((solutionMatrix x).m20 * (srcCorner W H i).x +
          (solutionMatrix x).m21 * (srcCorner W H i).y + (solutionMatrix x).m22) from hyi]
      exact mul_div_cancel_right₀ _ hwne

/-- When every corner re-projects exactly, each sanity step passes. -/
theorem sanityStep_ok {W H : ℚ} {q : Quad} {M : Matrix3x3} (i : Fin 4) (u : Unit)
    (h : applyHomography M (srcCorner W H i) = .ok (q.corner i)) :
    sanityStep W H q M u i = .ok u := by
  unfold sanityStep
  rw [h]
  show (if DEFAULT_EPSILON < |(q.corner i).x - (q.corner i).x| ∨
      DEFAULT_EPSILON < |(q.corner i).y - (q.corner i).y| then
      (Except.error "Homography sanity check failed." : Except String Unit)
    else Except.ok u) = Except.ok u
  rw [if_neg]
  norm_num [DEFAULT_EPSILON]

/-- When every corner re-projects exactly, the sanity check passes. -/
theorem sanityCheck_ok {W H : ℚ} {q : Quad} {M : Matrix3x3}
    (h : ∀ i : Fin 4, applyHomography M (srcCorner W H i) = .ok (q.corner i)) :
    sanityCheckRectToQuad W H q M = .ok () := by
  unfold sanityCheckRectToQuad
  have h0 := @sanityStep_ok W H q M 0 () (h 0)
  have h1 := @sanityStep_ok W H q M 1 () (h 1)
  have h2 := @sanityStep_ok W H q M 2 () (h 2)
  have h3 := @sanityStep_ok W H q M 3 () (h 3)
  rw [List.foldlM_cons, h0]
  show [1, 2, 3].foldlM (sanityStep W H q M) () = .ok ()
  rw [List.foldlM_cons, h1]
  show [2, 3].foldlM (sanityStep W H q M) () = .ok ()
  rw [List.foldlM_cons, h2]
  show [3].foldlM (sanityStep W H q M) () = .ok ()
  rw [List.foldlM_cons, h3]
  show [].foldlM (sanityStep W H q M) () = (.ok () : Except String Unit)
  rw [List.foldlM_nil]
  rfl

/-- Unpacking a validator acceptance into its five check results. -/
theorem validateQuad_none {q : Quad} {ε : ℚ} (h : validateQuad q ε = none) :
    hasDuplicatePoints q = false ∧ hasCollinearTriplet q ε = false ∧
    ¬(|quadArea q| ≤ ε) ∧ isClockwiseQuad q = true ∧
    isSelfIntersecting q ε = false := by
  unfold validateQuad at h
  split_ifs at h with h1 h2 h3 h4 h5 <;> simp_all

/-- The geometric facts the kernel-triviality argument needs, extracted
from a validator acceptance at the default epsilon. -/
theorem validateQuad_none_facts {q : Quad} (h : validateQuad q DEFAULT_EPSILON = none) :
    cross q.p1 q.p2 q.p3 ≠ 0 ∧ q.p2 ≠ q.p3 := by
  obtain ⟨hdup, hcol, _, _, _⟩ := validateQuad_none h
  constructor
  · intro h0
    have hfour : (decide (|cross q.p1 q.p2 q.p3| ≤ DEFAULT_EPSILON)) = true := by
      simp only [h0, abs_zero, decide_eq_true_eq]
      norm_num [DEFAULT_EPSILON]
    have hct : hasCollinearTriplet q DEFAULT_EPSILON = true := by
      unfold hasCollinearTriplet
      rw [hfour]
      simp
    rw [hct] at hcol
    simp at hcol
  · intro h0
    have hpe : pointsEqual q.p2 q.p3 = true := (pointsEqual_iff _ _).mpr h0
    have hdt : hasDuplicatePoints q = true := by
      unfold hasDuplicatePoints
      rw [hpe]
      simp
    rw [hdt] at hdup
    simp at hdup

/-- The spec's concrete scenario quad passes the validator. -/
theorem exampleQuad_valid : validateQuad exampleQuad DEFAULT_EPSILON = none := by
  norm_num [validateQuad, hasDuplicatePoints, pointsEqual, hasCollinearTriplet,
    cross, quadArea, isClockwiseQuad, isSelfIntersecting, segmentsIntersect,
    exampleQuad, DEFAULT_EPSILON]

theorem exampleSol_solves :
    mulVec (rectToQuadMatrix 100 50 exampleQuad) exampleSol =
      rectToQuadVec exampleQuad := by
  funext r
  fin_cases r <;>
    norm_num [mulVec, Fin.sum_univ_eight, rectToQuadMatrix, rectToQuadVec, srcCorner,
      Quad.corner, exampleSol, exampleQuad,
      show ((0:Fin 8):ℕ) = 0 from rfl, show ((1:Fin 8):ℕ) = 1 from rfl,
      show ((2:Fin 8):ℕ) = 2 from rfl, show ((3:Fin 8):ℕ) = 3 from rfl,
      show ((4:Fin 8):ℕ) = 4 from rfl, show ((5:Fin 8):ℕ) = 5 from rfl,
      show ((6:Fin 8):ℕ) = 6 from rfl, show ((7:Fin 8):ℕ) = 7 from rfl]

theorem exampleMargins : ∀ i : Fin 4,
    W_EPSILON ≤ |wComponent exampleH (srcCorner 100 50 i)| := by
  intro i
  fin_cases i <;>
    · rw [le_abs]
      left
      norm_num [wComponent, exampleH, solutionMatrix, exampleSol, srcCorner, W_EPSILON]

/-- The scenario system has trivial kernel. -/
theorem exampleQuad_kerTrivial : kerTrivial (rectToQuadMatrix 100 50 exampleQuad) := by
  obtain ⟨hc, hd⟩ := validateQuad_none_facts exampleQuad_valid
  exact rectToQuad_kerTrivial 100 50 exampleQuad (by norm_num) (by norm_num) hc hd

/-- The solver returns exactly `exampleSol` on the scenario system. -/
theorem example_solve :
    solveLinearSystem (rectToQuadMatrix 100 50 exampleQuad) (rectToQuadVec exampleQuad) =
      .ok exampleSol := by
  obtain ⟨x, hsol, huniq⟩ := solveLinearSystem_exact _ _ exampleQuad_kerTrivial
  have hx := (huniq exampleSol).mp exampleSol_solves
  rw [hsol, hx]

/-- The scenario homography reproduces all four corners exactly. -/
theorem exampleApplies : ∀ i : Fin 4,
    applyHomography exampleH (srcCorner 100 50 i) = .ok (exampleQuad.corner i) :=
  fun i => solution_applies exampleSol_solves i (exampleMargins i)

/-- The scenario computation succeeds in development mode. -/
theorem example_dev_ok :
    computeHomographyRectToQuad false 100 50 exampleQuad = .ok exampleH := by
  have hdim : ¬((100 : ℚ) ≤ 0 ∨ (50 : ℚ) ≤ 0) := by norm_num
  exact compute_dev_ok hdim exampleQuad_valid example_solve (sanityCheck_ok exampleApplies)

/-- C1 (amended): for every validator-accepted quad and positive
dimensions, production-mode `computeHomographyRectToQuad` succeeds with
a matrix `M`; each canonical rectangle corner is either re-projected by
`M` exactly onto its quad corner or has w-component within `W_EPSILON`
of zero (in which case `applyHomography` refuses the projection); and
whenever all four corner w-components clear `W_EPSILON`, the
development-mode computation also returns `M` and re-projection
reproduces all four corners exactly, hence within `1e-6`.  In
particular the concrete scenario `width = 100`, `height = 50`,
`quad = [(10,10), (210,10), (200,110), (0,100)]` succeeds and
re-projection reproduces the four corners exactly. -/
theorem computeHomography_exact :
    (∀ (W H : ℚ) (q : Quad), 0 < W → 0 < H → validateQuad q DEFAULT_EPSILON = none →
      ∃ M : Matrix3x3,
        computeHomographyRectToQuad true W H q = .ok M ∧
        (∀ i : Fin 4, applyHomography M (srcCorner W H i) = .ok (q.corner i) ∨
          |wComponent M (srcCorner W H i)| < W_EPSILON) ∧
        ((∀ i : Fin 4, W_EPSILON ≤ |wComponent M (srcCorner W H i)|) →
          computeHomographyRectToQuad false W H q = .ok M ∧
          (∀ i : Fin 4, applyHomography M (srcCorner W H i) = .ok (q.corner i)))) ∧
    (computeHomographyRectToQuad false 100 50 exampleQuad = .ok exampleH ∧
     ∀ i : Fin 4, applyHomography exampleH (srcCorner 100 50 i) = .ok (exampleQuad.corner i)) := by
  constructor
  · intro W H q hW hH hval
    obtain ⟨hc, hd⟩ := validateQuad_none_facts hval
    have hker := rectToQuad_kerTrivial W H q hW.ne' hH.ne' hc hd
    obtain ⟨x, hsol, huniq⟩ :=
      solveLinearSystem_exact (rectToQuadMatrix W H q) (rectToQuadVec q) hker
    have hdim : ¬(W ≤ 0 ∨ H ≤ 0) := by push_neg; exact ⟨hW, hH⟩
    have hx : mulVec (rectToQuadMatrix W H q) x = rectToQuadVec q := (huniq x).mpr rfl
    refine ⟨solutionMatrix x, compute_prod_ok hdim hval hsol, ?_, ?_⟩
    · intro i
      by_cases hm : W_EPSILON ≤ |wComponent (solutionMatrix x) (srcCorner W H i)|
      · exact Or.inl (solution_applies hx i hm)
      · exact Or.inr (not_le.mp hm)
    · intro hall
      have happly : ∀ i : Fin 4,
          applyHomography (solutionMatrix x) (srcCorner W H i) = .ok (q.corner i) :=
        fun i => solution_applies hx i (hall i)
      exact ⟨compute_dev_ok hdim hval hsol (sanityCheck_ok happly), happly⟩
  · exact ⟨example_dev_ok, exampleApplies⟩

/-- Witness for C1: the general statement instantiated at the concrete
scenario. -/
theorem computeHomography_exact_witness :
    ∃ M : Matrix3x3,
      computeHomographyRectToQuad true 100 50 exampleQuad = .ok M ∧
      (∀ i : Fin 4, applyHomography M (srcCorner 100 50 i) = .ok (exampleQuad.corner i) ∨
        |wComponent M (srcCorner 100 50 i)| < W_EPSILON) ∧
      ((∀ i : Fin 4, W_EPSILON ≤ |wComponent M (srcCorner 100 50 i)|) →
        computeHomographyRectToQuad false 100 50 exampleQuad = .ok M ∧
        (∀ i : Fin 4, applyHomography M (srcCorner 100 50 i) = .ok (exampleQuad.corner i))) :=
  computeHomography_exact.1 100 50 exampleQuad (by norm_num) (by norm_num)
    (by norm_num [validateQuad, hasDuplicatePoints, pointsEqual, hasCollinearTriplet,
      cross, quadArea, isClockwiseQuad, isSelfIntersecting, segmentsIntersect,
      exampleQuad, DEFAULT_EPSILON])

/-- The near-degenerate quad `qStar` passes the validator: every margin
is far above `1e-6` because its coordinates are of order `10^6`. -/
theorem qStar_valid : validateQuad qStar DEFAULT_EPSILON = none := by
  norm_num [validateQuad, hasDuplicatePoints, pointsEqual, hasCollinearTriplet,
    cross, quadArea, isClockwiseQuad, isSelfIntersecting, segmentsIntersect,
    qStar, DEFAULT_EPSILON, abs_le]

/-- The `qStarSol` solves the `qStar` system exactly. -/
theorem qStarSol_solves :
    mulVec (rectToQuadMatrix 100 50 qStar) qStarSol = rectToQuadVec qStar := by
  funext r
  fin_cases r <;>
    norm_num [mulVec, Fin.sum_univ_eight, rectToQuadMatrix, rectToQuadVec, srcCorner,
      Quad.corner, qStarSol, qStar,
      show ((0:Fin 8):ℕ) = 0 from rfl, show ((1:Fin 8):ℕ) = 1 from rfl,
      show ((2:Fin 8):ℕ) = 2 from rfl, show ((3:Fin 8):ℕ) = 3 from rfl,
      show ((4:Fin 8):ℕ) = 4 from rfl, show ((5:Fin 8):ℕ) = 5 from rfl,
      show ((6:Fin 8):ℕ) = 6 from rfl, show ((7:Fin 8):ℕ) = 7 from rfl]

/-- The `qStar` system has trivial kernel, so the solver succeeds. -/
theorem qStar_kerTrivial : kerTrivial (rectToQuadMatrix 100 50 qStar) := by
  obtain ⟨hc, hd⟩ := validateQuad_none_facts qStar_valid
  exact rectToQuad_kerTrivial 100 50 qStar (by norm_num) (by norm_num) hc hd

/-- The solver returns exactly `qStarSol` on the `qStar` system. -/
theorem qStar_solve :
    solveLinearSystem (rectToQuadMatrix 100 50 qStar) (rectToQuadVec qStar) =
      .ok qStarSol := by
  obtain ⟨x, hsol, huniq⟩ := solveLinearSystem_exact _ _ qStar_kerTrivial
  have hx := (huniq qStarSol).mp qStarSol_solves
  rw [hsol, hx]

/-- Corner 0 re-projects exactly under the `qStar` homography. -/
theorem qStar_apply0 :
    applyHomography qStarH (srcCorner 100 50 0) = .ok (qStar.corner 0) := by
  norm_num [applyHomography, qStarH, solutionMatrix, qStarSol, srcCorner, qStar,
    Quad.corner, W_EPSILON, abs_lt]

/-- The sanity step at corner 0 passes. -/
theorem qStar_step0 : sanityStep 100 50 qStar qStarH () 0 = .ok () :=
  sanityStep_ok 0 () qStar_apply0

/-- Corner 1 of the canonical rectangle lies within `W_EPSILON` of the
`qStar` homography's vanishing line: its w-component is `10^-15`. -/
theorem qStar_apply1 :
    applyHomography qStarH (srcCorner 100 50 1) =
      .error "Homography w is ~0 (degenerate transform)" := by
  norm_num [applyHomography, qStarH, solutionMatrix, qStarSol, srcCorner, W_EPSILON,
    abs_lt]

/-- The sanity step at corner 1 propagates the degenerate-w error. -/
theorem qStar_step1 :
    sanityStep 100 50 qStar qStarH () 1 =
      .error "Homography w is ~0 (degenerate transform)" := by
  unfold sanityStep
  rw [qStar_apply1]

/-- The sanity check on the `qStar` homography fails with the
degenerate-w error. -/
theorem qStar_sanity_error :
    sanityCheckRectToQuad 100 50 qStar qStarH =
      .error "Homography w is ~0 (degenerate transform)" := by
  unfold sanityCheckRectToQuad
  rw [List.foldlM_cons, qStar_step0]
  show [1, 2, 3].foldlM (sanityStep 100 50 qStar qStarH) () = _
  rw [List.foldlM_cons, qStar_step1]
  rfl

/-- Development mode fails on `qStar`. -/
theorem qStar_dev_error :
    computeHomographyRectToQuad false 100 50 qStar =
      .error "Homography w is ~0 (degenerate transform)" :=
  compute_dev_error (by norm_num) qStar_valid qStar_solve qStar_sanity_error

/-- Production mode succeeds on `qStar`. -/
theorem qStar_prod_ok :
    computeHomographyRectToQuad true 100 50 qStar = .ok qStarH :=
  compute_prod_ok (by norm_num) qStar_valid qStar_solve

/-- Counterexample to C1 as stated: `qStar` is accepted by the
validator and the dimensions `100 × 50` are positive, yet
`computeHomographyRectToQuad` (development mode, i.e. with the
`NODE_ENV` check not set to production) throws, and even the
production-mode matrix cannot re-project canonical corner 1, because
that corner's w-component `10^-15` falls below `W_EPSILON`. -/
theorem computeHomography_exact_counterexample :
    validateQuad qStar DEFAULT_EPSILON = none ∧
    (0 : ℚ) < 100 ∧ (0 : ℚ) < 50 ∧
    computeHomographyRectToQuad false 100 50 qStar =
      .error "Homography w is ~0 (degenerate transform)" ∧
    computeHomographyRectToQuad true 100 50 qStar = .ok qStarH ∧
    applyHomography qStarH (srcCorner 100 50 1) =
      .error "Homography w is ~0 (degenerate transform)" :=
  ⟨qStar_valid, by norm_num, by norm_num, qStar_dev_error, qStar_prod_ok, qStar_apply1⟩

/-- Witness for C9: on the concrete scenario the development-mode
success transfers to production mode with the same matrix. -/
theorem compute_env_agreement_witness :
    computeHomographyRectToQuad true 100 50 exampleQuad = .ok exampleH :=
  (compute_env_agreement 100 50 exampleQuad).1 exampleH example_dev_ok

/-- Counterexample to C9 as stated: on `qStar` the outcome of
`computeHomographyRectToQuad` depends on the environment — production
mode returns a matrix while development mode throws. -/
theorem compute_env_agreement_counterexample :
    computeHomographyRectToQuad true 100 50 qStar = .ok qStarH ∧
    computeHomographyRectToQuad false 100 50 qStar =
      .error "Homography w is ~0 (degenerate transform)" ∧
    computeHomographyRectToQuad true 100 50 qStar ≠
      computeHomographyRectToQuad false 100 50 qStar := by
  refine ⟨qStar_prod_ok, qStar_dev_error, ?_⟩
  rw [qStar_prod_ok, qStar_dev_error]
  simp
